import Mathlib

/-!
Verification of the ContentOps social-listening core
(`scripts/classify_and_route.py`, `scripts/daily_synthesis.py`).

Strings are modelled as lists of characters (`Str`); Python text operations
(`strip`, `split`, `lower`, `join`) are defined on them directly.  JSON values
produced by `json.loads` are modelled by the inductive `JVal`; Python floats
are modelled by rationals (the scripts only compare and round them), and
Python dicts by association lists with first-match lookup.
-/

namespace ContentOps

/-- Characters of a Python string. -/
abbrev Str := List Char

/-- Character list of a string literal. -/
def chars (s : String) : Str := s.toList

/-- Whitespace class used by Python `str.strip` / `str.split`
(space, tab, newline, carriage return, vertical tab, form feed). -/
def wsp (c : Char) : Bool :=
  c = ' ' || c = '\t' || c = '\n' || c = '\r' || c = '\x0b' || c = '\x0c'

/-- Python `str.lstrip()`. -/
def pyStripL (s : Str) : Str := s.dropWhile wsp

/-- Python `str.strip()`: drop whitespace from both ends. -/
def pyStrip (s : Str) : Str := ((s.dropWhile wsp).reverse.dropWhile wsp).reverse

/-- Lower-casing of one character (ASCII fragment of Python `str.lower`;
all strings compared by the scripts are ASCII). -/
def pyLower (c : Char) : Char :=
  if 'A' ≤ c && c ≤ 'Z' then Char.ofNat (c.toNat + 32) else c

/-- Python `str.lower()` on a whole string. -/
def lowerS (s : Str) : Str := s.map pyLower

/-- Python `str.isdigit()` restricted to ASCII decimal digits
(the fragment relevant to numeric priorities). -/
def pyIsDigits (s : Str) : Bool := !s.isEmpty && s.all Char.isDigit

/-- Value of a digit string, as produced by Python `int(...)` on it. -/
def digitsToNat (s : Str) : Nat := s.foldl (fun a c => a * 10 + (c.toNat - 48)) 0

/-- JSON values as returned by `json.loads`: Python `str`, `int`, `float`,
`bool`, `None`, `list` and `dict` (dicts as association lists in insertion
order; real dicts never repeat a key, lookup takes the first match). -/
inductive JVal where
  | jstr (s : Str)
  | jint (n : ℤ)
  | jfloat (q : ℚ)
  | jbool (b : Bool)
  | jnull
  | jarr (xs : List JVal)
  | jobj (fs : List (Str × JVal))

/-- Association-list object (Python dict). -/
abbrev Obj := List (Str × JVal)

/-- Python `d.get(k)` / `d[k]`: first binding of the key. -/
def getO (o : Obj) (k : Str) : Option JVal :=
  match o with
  | [] => none
  | (k', v) :: rest => if k' = k then some v else getO rest k

/-- Python `d[k] = v`: replace the binding in place, or append a new one. -/
def setO (o : Obj) (k : Str) (v : JVal) : Obj :=
  match o with
  | [] => [(k, v)]
  | (k', v') :: rest => if k' = k then (k, v) :: rest else (k', v') :: setO rest k v

/-- Python `d.setdefault(k, v)` (effect on the dict). -/
def setdefO (o : Obj) (k : Str) (v : JVal) : Obj :=
  match getO o k with
  | some _ => o
  | none => setO o k v

/-- Lookup inside a value that is expected to be a dict (`v[k]` in Python;
`none` both when the key is absent and when `v` is not a dict). -/
def jGet (v : JVal) (k : Str) : Option JVal :=
  match v with
  | .jobj fs => getO fs k
  | _ => none

/-! ### Risk-level coercion (classify_and_route.py lines 258–267)

`rl = data["reputation"].get("risk_level", "Low")` is coerced:
numbers via `rl <= 0` / `rl == 1` / else, strings via a strip/lower lookup
table defaulting to "Low", anything else to "Low".  Python `bool` passes the
`isinstance(rl, (int, float))` test (`False == 0`, `True == 1`). -/

/-- Lookup table `{"low": "Low", "medium": "Medium", "high": "High"}`. -/
def riskMap (s : Str) : Option Str :=
  if s = chars "low" then some (chars "Low")
  else if s = chars "medium" then some (chars "Medium")
  else if s = chars "high" then some (chars "High")
  else none

/-- Coercion of a `risk_level` value into the Low/Medium/High enum. -/
def coerceRisk (rl : JVal) : JVal :=
  match rl with
  | .jint n => if n ≤ 0 then .jstr (chars "Low")
               else if n = 1 then .jstr (chars "Medium")
               else .jstr (chars "High")
  | .jfloat q => if q ≤ 0 then .jstr (chars "Low")
                 else if q = 1 then .jstr (chars "Medium")
                 else .jstr (chars "High")
  | .jbool b => if b then .jstr (chars "Medium") else .jstr (chars "Low")
  | .jstr s =>
      match riskMap (lowerS (pyStrip s)) with
      | some c => .jstr c
      | none => .jstr (chars "Low")
  | _ => .jstr (chars "Low")

/-! ### Choice normalization (daily_synthesis.py lines 161–170) -/

/-- Model of `normalize_choice(value, allowed, default)`: non-strings map to
the default; otherwise the stripped value is returned when it is an allowed
spelling, else the first allowed entry matching case-insensitively, else the
default. -/
def normalizeChoice (v : JVal) (allowed : List Str) (dflt : Str) : Str :=
  match v with
  | .jstr s =>
      let t := pyStrip s
      if t ∈ allowed then t
      else
        match allowed.find? (fun a => lowerS a = lowerS t) with
        | some a => a
        | none => dflt
  | _ => dflt

/-- Allowed audiences (`ALLOWED_AUDIENCE`). -/
def allowedAudience : List Str := [chars "CashBuyer", chars "Operator", chars "HNWI/LP"]

/-- Allowed platform targets (`ALLOWED_PLATFORM_TARGET`). -/
def allowedPlatformTarget : List Str :=
  [chars "BiggerPockets", chars "LinkedIn", chars "X", chars "Substack"]

/-! ### Python `str.split()` and `" ".join(...)` -/

theorem length_dropWhile_le (p : Char → Bool) (l : Str) :
    (l.dropWhile p).length ≤ l.length := by
  induction l with
  | nil => simp
  | cons c cs ih =>
      by_cases h : p c = true
      · rw [List.dropWhile_cons_of_pos h]
        exact le_trans ih (Nat.le_succ _)
      · rw [List.dropWhile_cons_of_neg h]

/-- Python `str.split()` with no argument: maximal runs of non-whitespace. -/
def words (l : Str) : List Str :=
  match l with
  | [] => []
  | c :: cs =>
      if wsp c then words cs
      else (c :: cs.takeWhile (fun x => !wsp x)) :: words (cs.dropWhile (fun x => !wsp x))
termination_by l.length
decreasing_by
  · simp
  · have := length_dropWhile_le (fun x => !wsp x) cs; simp; omega

/-- Python `" ".join(ws)`. -/
def joinWords : List Str → Str
  | [] => []
  | [w] => w
  | w :: ws => w ++ ' ' :: joinWords ws

theorem words_nil : words [] = [] := by rw [words]

theorem words_cons_ws {c : Char} (h : wsp c = true) (l : Str) :
    words (c :: l) = words l := by
  rw [words]; simp [h]

theorem words_cons_solid {c : Char} (h : wsp c = false) (l : Str) :
    words (c :: l) =
      (c :: l.takeWhile (fun x => !wsp x)) :: words (l.dropWhile (fun x => !wsp x)) := by
  rw [words]; simp [h]

theorem words_all_ws {l : Str} (h : ∀ c ∈ l, wsp c = true) : words l = [] := by
  induction l with
  | nil => exact words_nil
  | cons c cs ih =>
      rw [words_cons_ws (h c (by simp))]
      exact ih fun x hx => h x (by simp [hx])

/-- Every word produced by `words` is nonempty and free of whitespace. -/
theorem words_solid {l : Str} : ∀ w ∈ words l, w ≠ [] ∧ ∀ c ∈ w, wsp c = false := by
  induction l using words.induct with
  | case1 => simp [words_nil]
  | case2 c cs hc ih => rw [words_cons_ws hc]; exact ih
  | case3 c cs hc ih =>
      rw [words_cons_solid (by simpa using hc)]
      intro w hw
      rcases List.mem_cons.mp hw with h | h
      · subst h
        refine ⟨by simp, ?_⟩
        intro x hx
        rcases List.mem_cons.mp hx with h | h
        · subst h; simpa using hc
        · simpa using List.mem_takeWhile_imp h
      · exact ih w h

theorem takeWhile_all_ws {t : Str} (h : ∀ c ∈ t, wsp c = true) :
    t.takeWhile (fun x => !wsp x) = [] := by
  cases t with
  | nil => rfl
  | cons c cs => simp [List.takeWhile, h c (by simp)]

theorem dropWhile_all_ws {t : Str} (h : ∀ c ∈ t, wsp c = true) :
    t.dropWhile (fun x => !wsp x) = t := by
  cases t with
  | nil => rfl
  | cons c cs => simp [List.dropWhile, h c (by simp)]

theorem takeWhile_append_stops {p : Char → Bool} {cs : Str} (t : Str)
    (h : ¬ ∀ x ∈ cs, p x = true) :
    (cs ++ t).takeWhile p = cs.takeWhile p := by
  induction cs with
  | nil => exact absurd (by simp) h
  | cons c cs ih =>
      by_cases hc : p c = true
      · have h' : ¬ ∀ x ∈ cs, p x = true := by
          intro hall; exact h fun x hx => by
            rcases List.mem_cons.mp hx with rfl | hx
            · exact hc
            · exact hall x hx
        simp [List.takeWhile, hc, ih h']
      · simp [List.takeWhile, hc]

theorem dropWhile_append_stops {p : Char → Bool} {cs : Str} (t : Str)
    (h : ¬ ∀ x ∈ cs, p x = true) :
    (cs ++ t).dropWhile p = cs.dropWhile p ++ t := by
  induction cs with
  | nil => exact absurd (by simp) h
  | cons c cs ih =>
      by_cases hc : p c = true
      · have h' : ¬ ∀ x ∈ cs, p x = true := by
          intro hall; exact h fun x hx => by
            rcases List.mem_cons.mp hx with rfl | hx
            · exact hc
            · exact hall x hx
        simp [List.dropWhile, hc, ih h']
      · simp [List.dropWhile, hc]

/-- Appending trailing whitespace does not change the word list. -/
theorem words_append_ws {l t : Str} (h : ∀ c ∈ t, wsp c = true) :
    words (l ++ t) = words l := by
  induction l using words.induct with
  | case1 => rw [List.nil_append, words_nil]; exact words_all_ws h
  | case2 c cs hc ih => rw [List.cons_append, words_cons_ws hc, words_cons_ws hc]; exact ih
  | case3 c cs hc ih =>
      replace hc : wsp c = false := by simpa using hc
      rw [List.cons_append, words_cons_solid hc, words_cons_solid hc]
      by_cases hall : ∀ x ∈ cs, wsp x = false
      · have htk : cs.takeWhile (fun x => !wsp x) = cs :=
          List.takeWhile_eq_self_iff.mpr (by simpa using hall)
        have hdw : cs.dropWhile (fun x => !wsp x) = [] :=
          List.dropWhile_eq_nil_iff.mpr (by simpa using hall)
        rw [List.takeWhile_append, List.dropWhile_append, htk, hdw]
        simp [takeWhile_all_ws h, dropWhile_all_ws h, words_all_ws h, words_nil]
      · have hex : ¬ ∀ x ∈ cs, (fun x => !wsp x) x = true := by
          intro hall'; exact hall fun x hx => by simpa using hall' x hx
        rw [takeWhile_append_stops t hex, dropWhile_append_stops t hex, ih]

theorem words_dropWhileL (l : Str) : words (l.dropWhile wsp) = words l := by
  induction l with
  | nil => rfl
  | cons c cs ih =>
      by_cases hc : wsp c = true
      · rw [List.dropWhile_cons_of_pos hc, words_cons_ws hc]; exact ih
      · rw [List.dropWhile_cons_of_neg (by simp [hc])]

/-- Stripping never changes the word list (`x.strip().split() == x.split()`). -/
theorem words_pyStrip (l : Str) : words (pyStrip l) = words l := by
  unfold pyStrip
  rw [← words_dropWhileL l]
  generalize l.dropWhile wsp = m
  have hsplit : m = (m.reverse.dropWhile wsp).reverse ++ (m.reverse.takeWhile wsp).reverse := by
    conv_lhs => rw [← List.reverse_reverse m, ← List.takeWhile_append_dropWhile (p := wsp) (l := m.reverse)]
    rw [List.reverse_append]
  have hws : ∀ c ∈ (m.reverse.takeWhile wsp).reverse, wsp c = true := by
    intro c hc
    exact List.mem_takeWhile_imp (List.mem_reverse.mp hc)
  conv_rhs => rw [hsplit]
  rw [words_append_ws hws]

theorem words_of_solid {w : Str} (hne : w ≠ []) (hs : ∀ c ∈ w, wsp c = false) :
    words w = [w] := by
  match w with
  | [] => exact absurd rfl hne
  | c :: cs =>
      rw [words_cons_solid (hs c (by simp))]
      rw [List.takeWhile_eq_self_iff.mpr (by intro x hx; simp [hs x (by simp [hx])])]
      rw [List.dropWhile_eq_nil_iff.mpr (by intro x hx; simp [hs x (by simp [hx])])]
      rw [words_nil]

/-- Splitting a space-join of solid nonempty words recovers the word list. -/
theorem words_joinWords {ws : List Str}
    (h : ∀ w ∈ ws, w ≠ [] ∧ ∀ c ∈ w, wsp c = false) :
    words (joinWords ws) = ws := by
  induction ws with
  | nil => exact words_nil
  | cons w ws ih =>
      match ws with
      | [] =>
          obtain ⟨hne, hs⟩ := h w (by simp)
          exact words_of_solid hne hs
      | w2 :: ws' =>
          obtain ⟨hne, hs⟩ := h w (by simp)
          have hrest : ∀ u ∈ w2 :: ws', u ≠ [] ∧ ∀ c ∈ u, wsp c = false := by
            intro u hu; exact h u (by simp [hu])
          match w with
          | [] => exact absurd rfl hne
          | c :: cs =>
              show words ((c :: cs) ++ ' ' :: joinWords (w2 :: ws')) = _
              rw [List.cons_append, words_cons_solid (hs c (by simp))]
              have hcs : ∀ x ∈ cs, wsp x = false := fun x hx => hs x (by simp [hx])
              have htkcs : cs.takeWhile (fun x => !wsp x) = cs :=
                List.takeWhile_eq_self_iff.mpr (by intro x hx; simp [hcs x hx])
              have hdwcs : cs.dropWhile (fun x => !wsp x) = [] :=
                List.dropWhile_eq_nil_iff.mpr (by intro x hx; simp [hcs x hx])
              rw [List.takeWhile_append, List.dropWhile_append, htkcs, hdwcs]
              simp only [List.length_nil, List.isEmpty_nil, if_true, List.takeWhile_cons]
              have hsp : wsp ' ' = true := by decide
              simp only [hsp, Bool.not_true, Bool.false_eq_true, if_false, List.append_nil,
                List.dropWhile_cons, if_neg]
              rw [words_cons_ws hsp, ih hrest]

/-- Model of `" ".join(x.strip().split())` (classify/synthesis bullet cleanup). -/
def cleanOne (s : Str) : Str := joinWords (words (pyStrip s))

theorem cleanOne_idem (s : Str) : cleanOne (cleanOne s) = cleanOne s := by
  unfold cleanOne
  rw [words_pyStrip (joinWords (words (pyStrip s)))]
  rw [words_joinWords (fun w hw => words_solid w hw)]

/-! ### Bullet cleaning (daily_synthesis.py lines 172–189)

`clean_bullets(items, max_n)` walks the list, skips non-strings, collapses
whitespace, skips blanks and case-insensitive duplicates, and appends until
`len(out) >= max_n` triggers the `break` right after an append. -/

/-- Loop of `clean_bullets`: `seen` is the set of lower-cased keys (as a list),
`acc` the output built in reverse. -/
def cleanGo (maxN : Nat) : List JVal → List Str → List Str → List Str
  | [], _, acc => acc.reverse
  | x :: xs, seen, acc =>
      match x with
      | .jstr s0 =>
          let s := cleanOne s0
          if s = [] then cleanGo maxN xs seen acc
          else if lowerS s ∈ seen then cleanGo maxN xs seen acc
          else if maxN ≤ acc.length + 1 then (s :: acc).reverse
          else cleanGo maxN xs (lowerS s :: seen) (s :: acc)
      | _ => cleanGo maxN xs seen acc

/-- Model of `clean_bullets(items, max_n)`. -/
def cleanBullets (items : JVal) (maxN : Nat) : List Str :=
  match items with
  | .jarr xs => cleanGo maxN xs [] []
  | _ => []

/-- Key-distinctness relation used by the dedup set of `clean_bullets`. -/
def keyNe (a b : Str) : Prop := lowerS a ≠ lowerS b

theorem cleanGo_inv (maxN : Nat) (xs : List JVal) (seen acc : List Str)
    (h1 : ∀ t ∈ acc, cleanOne t = t ∧ t ≠ [])
    (h2 : acc.Pairwise keyNe)
    (h3 : ∀ t ∈ acc, lowerS t ∈ seen)
    (h4 : acc.length < max maxN 1) :
    (∀ t ∈ cleanGo maxN xs seen acc, cleanOne t = t ∧ t ≠ []) ∧
      (cleanGo maxN xs seen acc).Pairwise keyNe ∧
      (cleanGo maxN xs seen acc).length ≤ max maxN 1 := by
  induction xs generalizing seen acc with
  | nil =>
      refine ⟨fun t ht => h1 t (List.mem_reverse.mp (by simpa [cleanGo] using ht)), ?_, ?_⟩
      · simpa [cleanGo, List.pairwise_reverse] using h2.imp fun h => Ne.symm h
      · simpa [cleanGo] using Nat.le_of_lt h4
  | cons x xs ih =>
      match x with
      | .jstr s0 =>
          by_cases hb : cleanOne s0 = []
          · have hres : cleanGo maxN (JVal.jstr s0 :: xs) seen acc
                = cleanGo maxN xs seen acc := by
              simp [cleanGo, hb]
            rw [hres]; exact ih seen acc h1 h2 h3 h4
          · by_cases hseen : lowerS (cleanOne s0) ∈ seen
            · have hres : cleanGo maxN (JVal.jstr s0 :: xs) seen acc
                  = cleanGo maxN xs seen acc := by
                simp [cleanGo, hb, hseen]
              rw [hres]; exact ih seen acc h1 h2 h3 h4
            · by_cases hbrk : maxN ≤ acc.length + 1
              · have hres : cleanGo maxN (JVal.jstr s0 :: xs) seen acc
                    = (cleanOne s0 :: acc).reverse := by
                  simp [cleanGo, hb, hseen, hbrk]
                rw [hres]
                refine ⟨?_, ?_, ?_⟩
                · intro t ht
                  rcases List.mem_cons.mp (List.mem_reverse.mp ht) with rfl | ht'
                  · exact ⟨cleanOne_idem s0, hb⟩
                  · exact h1 t ht'
                · rw [List.pairwise_reverse]
                  refine (List.pairwise_cons.mpr ⟨?_, h2⟩).imp fun h => Ne.symm h
                  intro a ha hkey
                  exact hseen (hkey ▸ h3 a ha)
                · have hm := Nat.le_max_left maxN 1
                  have hm1 := Nat.le_max_right maxN 1
                  simp only [List.length_reverse, List.length_cons]
                  omega
              · have hres : cleanGo maxN (JVal.jstr s0 :: xs) seen acc
                    = cleanGo maxN xs (lowerS (cleanOne s0) :: seen) (cleanOne s0 :: acc) := by
                  simp [cleanGo, hb, hseen, hbrk]
                rw [hres]
                refine ih _ _ ?_ ?_ ?_ ?_
                · intro t ht
                  rcases List.mem_cons.mp ht with rfl | ht'
                  · exact ⟨cleanOne_idem s0, hb⟩
                  · exact h1 t ht'
                · refine List.pairwise_cons.mpr ⟨?_, h2⟩
                  intro a ha hkey
                  exact hseen (hkey ▸ h3 a ha)
                · intro t ht
                  rcases List.mem_cons.mp ht with rfl | ht'
                  · exact List.mem_cons_self _ _
                  · exact List.mem_cons_of_mem _ (h3 t ht')
                · have hm := Nat.le_max_left maxN 1
                  have hm1 := Nat.le_max_right maxN 1
                  simp only [List.length_cons]
                  omega
      | .jint n => simpa [cleanGo] using ih seen acc h1 h2 h3 h4
      | .jfloat q => simpa [cleanGo] using ih seen acc h1 h2 h3 h4
      | .jbool b => simpa [cleanGo] using ih seen acc h1 h2 h3 h4
      | .jnull => simpa [cleanGo] using ih seen acc h1 h2 h3 h4
      | .jarr ys => simpa [cleanGo] using ih seen acc h1 h2 h3 h4
      | .jobj fs => simpa [cleanGo] using ih seen acc h1 h2 h3 h4

/-- Feeding an already-clean list back through the `clean_bullets` loop
reproduces it unchanged. -/
theorem cleanGo_replay (maxN : Nat) (ts : List Str) (seen acc : List Str)
    (h1 : ∀ t ∈ ts, cleanOne t = t ∧ t ≠ [])
    (h2 : ts.Pairwise keyNe)
    (h3 : ∀ t ∈ ts, lowerS t ∉ seen)
    (h4 : acc.length + ts.length ≤ max maxN 1) :
    cleanGo maxN (ts.map .jstr) seen acc = acc.reverse ++ ts := by
  induction ts generalizing seen acc with
  | nil => simp [cleanGo]
  | cons t ts ih =>
      obtain ⟨hfix, hne⟩ := h1 t (by simp)
      have hnotseen : lowerS (cleanOne t) ∉ seen := by rw [hfix]; exact h3 t (by simp)
      have hne' : cleanOne t ≠ [] := by rw [hfix]; exact hne
      by_cases hbrk : maxN ≤ acc.length + 1
      · have hmax : max maxN 1 ≤ acc.length + 1 := Nat.max_le.mpr ⟨hbrk, by omega⟩
        have hts : ts = [] := by
          simp only [List.length_cons] at h4
          have : ts.length = 0 := by omega
          exact List.length_eq_zero.mp this
        subst hts
        have hres : cleanGo maxN ([t].map .jstr) seen acc = (cleanOne t :: acc).reverse := by
          simp [cleanGo, hne', hnotseen, hbrk]
        rw [hres, hfix, List.reverse_cons]
      · have hres : cleanGo maxN ((t :: ts).map .jstr) seen acc
            = cleanGo maxN (ts.map .jstr) (lowerS (cleanOne t) :: seen) (cleanOne t :: acc) := by
          simp [cleanGo, hne', hnotseen, hbrk]
        have h2' := List.pairwise_cons.mp h2
        have h3' : ∀ u ∈ ts, lowerS u ∉ lowerS t :: seen := by
          intro u hu
          simp only [List.mem_cons]
          push_neg
          exact ⟨fun hk => (h2'.1 u hu) hk.symm, h3 u (by simp [hu])⟩
        have h4' : (t :: acc).length + ts.length ≤ max maxN 1 := by
          simp only [List.length_cons] at h4 ⊢
          omega
        rw [hres, hfix,
          ih (lowerS t :: seen) (t :: acc) (fun u hu => h1 u (by simp [hu])) h2'.2 h3' h4']
        simp

theorem cleanBullets_idem (items : JVal) (maxN : Nat) :
    cleanBullets (.jarr ((cleanBullets items maxN).map .jstr)) maxN
      = cleanBullets items maxN := by
  have hkey : ∀ xs : List JVal,
      cleanGo maxN ((cleanGo maxN xs [] []).map .jstr) [] [] = cleanGo maxN xs [] [] := by
    intro xs
    obtain ⟨h1, h2, h3⟩ := cleanGo_inv maxN xs [] [] (by simp) (by simp) (by simp)
      (lt_of_lt_of_le Nat.one_pos (Nat.le_max_right maxN 1))
    have := cleanGo_replay maxN (cleanGo maxN xs [] []) [] [] h1 h2 (by simp) (by simpa using h3)
    simpa using this
  match items with
  | .jarr xs => exact hkey xs
  | .jstr s => simp [cleanBullets, cleanGo]
  | .jint n => simp [cleanBullets, cleanGo]
  | .jfloat q => simp [cleanBullets, cleanGo]
  | .jbool b => simp [cleanBullets, cleanGo]
  | .jnull => simp [cleanBullets, cleanGo]
  | .jobj fs => simp [cleanBullets, cleanGo]

/-! ### Mention-id cleaning (daily_synthesis.py lines 246–247)

`mids = [m for m in t.get("mention_ids", []) if isinstance(m, str) and m.strip()]`
then `t["mention_ids"] = list(dict.fromkeys(mids))[:15]`. -/

/-- Keep the non-blank strings of a JSON list, in order. -/
def midsKeep (xs : List JVal) : List Str :=
  xs.filterMap fun x =>
    match x with
    | .jstr s => if pyStrip s = [] then none else some s
    | _ => none

/-- Python `list(dict.fromkeys(l))`: deduplicate keeping first occurrences. -/
def dedupFirst (l : List Str) : List Str :=
  match l with
  | [] => []
  | x :: xs => x :: dedupFirst (xs.filter (fun y => y ≠ x))
termination_by l.length
decreasing_by
  simp only [List.length_cons]
  exact Nat.lt_succ_of_le (List.length_filter_le _ xs)

/-- Cleanup of a `mention_ids` value (the schema has already forced it to be a
list when this runs; other shapes are mapped to the empty list). -/
def cleanMids (v : JVal) : List Str :=
  (dedupFirst (midsKeep (match v with | .jarr xs => xs | _ => []))).take 15

theorem mem_dedupFirst {l : List Str} : ∀ y ∈ dedupFirst l, y ∈ l := by
  induction l using dedupFirst.induct with
  | case1 => simp [dedupFirst]
  | case2 x xs ih =>
      intro y hy
      rw [dedupFirst] at hy
      rcases List.mem_cons.mp hy with rfl | hy'
      · simp
      · exact List.mem_cons_of_mem _ (List.mem_of_mem_filter (ih y hy'))

theorem dedupFirst_nodup (l : List Str) : (dedupFirst l).Nodup := by
  induction l using dedupFirst.induct with
  | case1 => simp [dedupFirst]
  | case2 x xs ih =>
      rw [dedupFirst]
      refine List.nodup_cons.mpr ⟨?_, ih⟩
      intro hx
      have := mem_dedupFirst x hx
      simp at this

theorem dedupFirst_of_nodup {l : List Str} (h : l.Nodup) : dedupFirst l = l := by
  induction l using dedupFirst.induct with
  | case1 => rw [dedupFirst]
  | case2 x xs ih =>
      rw [dedupFirst]
      obtain ⟨hx, hxs⟩ := List.nodup_cons.mp h
      have hfil : xs.filter (fun y => y ≠ x) = xs := by
        rw [List.filter_eq_self]
        intro y hy
        simp only [ne_eq, decide_eq_true_eq]
        exact fun hyx => hx (hyx ▸ hy)
      rw [hfil] at ih ⊢
      rw [ih hxs]

theorem mem_midsKeep {xs : List JVal} : ∀ s ∈ midsKeep xs, pyStrip s ≠ [] := by
  intro s hs
  obtain ⟨x, _, hx⟩ := List.mem_filterMap.mp hs
  match x with
  | .jstr u =>
      by_cases hu : pyStrip u = [] <;> simp [hu] at hx
      exact hx ▸ hu
  | .jint n => simp at hx
  | .jfloat q => simp at hx
  | .jbool b => simp at hx
  | .jnull => simp at hx
  | .jarr ys => simp at hx
  | .jobj fs => simp at hx

theorem midsKeep_strs {ts : List Str} (h : ∀ s ∈ ts, pyStrip s ≠ []) :
    midsKeep (ts.map .jstr) = ts := by
  induction ts with
  | nil => rfl
  | cons t ts ih =>
      have ht := h t (by simp)
      simp only [List.map_cons, midsKeep, List.filterMap_cons]
      rw [if_neg ht]
      have := ih fun s hs => h s (by simp [hs])
      simp only [midsKeep] at this
      rw [this]

theorem cleanMids_idem (v : JVal) :
    cleanMids (.jarr ((cleanMids v).map .jstr)) = cleanMids v := by
  unfold cleanMids
  set base := midsKeep (match v with | .jarr xs => xs | _ => []) with hbase
  set out := (dedupFirst base).take 15 with hout
  have hmem : ∀ s ∈ out, pyStrip s ≠ [] := by
    intro s hs
    exact mem_midsKeep s (mem_dedupFirst s (List.mem_of_mem_take hs))
  have hnd : out.Nodup := (dedupFirst_nodup base).sublist (List.take_sublist _ _)
  rw [midsKeep_strs hmem, dedupFirst_of_nodup hnd]
  rw [List.take_take]
  simp

/-! ### Association-list (dict) lemmas -/

theorem getO_setO_self (o : Obj) (k : Str) (v : JVal) : getO (setO o k v) k = some v := by
  induction o with
  | nil => simp [setO, getO]
  | cons p rest ih =>
      obtain ⟨k', v'⟩ := p
      by_cases h : k' = k
      · simp [setO, getO, h]
      · simp [setO, getO, h, ih]

theorem getO_setO_ne (o : Obj) {k k' : Str} (hne : k' ≠ k) (v : JVal) :
    getO (setO o k v) k' = getO o k' := by
  induction o with
  | nil =>
      simp only [setO, getO]
      rw [if_neg (Ne.symm hne)]
  | cons p rest ih =>
      obtain ⟨k0, v0⟩ := p
      by_cases h : k0 = k
      · subst h
        simp only [setO, if_pos rfl, getO]
        rw [if_neg (Ne.symm hne), if_neg (Ne.symm hne)]
      · simp only [setO, if_neg h, getO]
        by_cases h0 : k0 = k'
        · simp [h0]
        · simp [h0, ih]

theorem setO_same {o : Obj} {k : Str} {v : JVal} (h : getO o k = some v) :
    setO o k v = o := by
  induction o with
  | nil => simp [getO] at h
  | cons p rest ih =>
      obtain ⟨k0, v0⟩ := p
      by_cases h0 : k0 = k
      · subst h0
        have hv : v0 = v := by simpa [getO] using h
        simp [setO, hv]
      · simp only [getO, if_neg h0] at h
        simp [setO, h0, ih h]

theorem setO_setO (o : Obj) (k : Str) (v w : JVal) :
    setO (setO o k v) k w = setO o k w := by
  induction o with
  | nil => simp [setO]
  | cons p rest ih =>
      obtain ⟨k0, v0⟩ := p
      by_cases h0 : k0 = k
      · simp [setO, h0]
      · simp [setO, h0, ih]

/-! ### Triage-output normalization (classify_and_route.py lines 225–306)

Field keys of the triage contract. -/

def kSentiment : Str := chars "sentiment"
def kPriority : Str := chars "priority"
def kCompliance : Str := chars "compliance_mode"
def kRoutes : Str := chars "routes"
def kEntities : Str := chars "entities"
def kMetros : Str := chars "metros"
def kConfidence : Str := chars "confidence"
def kLead : Str := chars "lead"
def kReputation : Str := chars "reputation"
def kContent : Str := chars "content"
def kNotes : Str := chars "notes"
def kTitle : Str := chars "title"
def kDraft : Str := chars "draft_reply"
def kRisk : Str := chars "risk_level"
def kAngle : Str := chars "angle"
def kOutline : Str := chars "outline_bullets"
def kCanva : Str := chars "canva_prompts"

/-- Sentiment lookup table
`{"positive":"Positive","neutral":"Neutral","negative":"Negative","mixed":"Mixed"}`. -/
def sentMap (s : Str) : Option Str :=
  if s = chars "positive" then some (chars "Positive")
  else if s = chars "neutral" then some (chars "Neutral")
  else if s = chars "negative" then some (chars "Negative")
  else if s = chars "mixed" then some (chars "Mixed")
  else none

/-- Sentiment remap, first occurrence (lines 227–229): when the value is a
string, assign the table entry for its stripped lower-casing, falling back to
the unchanged value (`.get(_s, data["sentiment"])`). -/
def remapSentA (o : Obj) : Obj :=
  match getO o kSentiment with
  | some (.jstr s) => setO o kSentiment (.jstr ((sentMap (lowerS (pyStrip s))).getD s))
  | _ => o

/-- Sentiment remap, second occurrence (lines 296–300): assign only when the
stripped lower-casing is in the table. -/
def remapSentB (o : Obj) : Obj :=
  match getO o kSentiment with
  | some (.jstr s) =>
      match sentMap (lowerS (pyStrip s)) with
      | some c => setO o kSentiment (.jstr c)
      | none => o
  | _ => o

/-- Replace a key by an empty dict unless it already holds a dict
(`if not isinstance(data.get(k), dict): data[k] = {}`, lines 232–239). -/
def ensureObj (o : Obj) (k : Str) : Obj :=
  match getO o k with
  | some (.jobj _) => o
  | _ => setO o k (.jobj [])

/-- Nested `data[k].setdefault(kk, v)` (lines 242–256); the outer key is
guaranteed to hold a dict when this runs. -/
def setDefIn (o : Obj) (k kk : Str) (v : JVal) : Obj :=
  match getO o k with
  | some (.jobj fs) => setO o k (.jobj (setdefO fs kk v))
  | _ => o

/-- Defaults of `data["lead"]` (lines 242–243). -/
def fillLead (o : Obj) : Obj :=
  setDefIn (setDefIn o kLead kTitle (.jstr [])) kLead kDraft (.jstr [])

/-- Defaults of `data["reputation"]` (lines 245–247). -/
def fillRep (o : Obj) : Obj :=
  setDefIn (setDefIn (setDefIn o kReputation kTitle (.jstr []))
    kReputation kDraft (.jstr [])) kReputation kRisk (.jstr (chars "Low"))

/-- Defaults of `data["content"]` (lines 249–252). -/
def fillContent (o : Obj) : Obj :=
  setDefIn (setDefIn (setDefIn (setDefIn o kContent kTitle (.jstr []))
    kContent kAngle (.jstr [])) kContent kOutline (.jarr [])) kContent kCanva (.jarr [])

/-- Defaults of `data["routes"]` (lines 254–256). -/
def fillRoutes (o : Obj) : Obj :=
  setDefIn (setDefIn (setDefIn o kRoutes kLead (.jbool false))
    kRoutes kReputation (.jbool false)) kRoutes kContent (.jbool false)

/-- Nested-object defaulting (lines 231–256): ensure the four nested dicts
exist, then fill every required leaf with its default. -/
def ensureDefaults (o : Obj) : Obj :=
  fillRoutes (fillContent (fillRep (fillLead
    (ensureObj (ensureObj (ensureObj (ensureObj o kLead) kReputation) kContent) kRoutes))))

/-- Risk-level coercion applied in place (lines 258–267):
`data["reputation"]["risk_level"] = coerce(data["reputation"].get("risk_level", "Low"))`. -/
def coerceRiskIn (o : Obj) : Obj :=
  match getO o kReputation with
  | some (.jobj fs) =>
      setO o kReputation (.jobj (setO fs kRisk (coerceRisk ((getO fs kRisk).getD (.jstr (chars "Low"))))))
  | _ => o

/-- Second risk-level remap (lines 302–306): strings already in the enum get
their canonical casing; everything else is left alone. -/
def riskRemapB (o : Obj) : Obj :=
  match getO o kReputation with
  | some (.jobj fs) =>
      match getO fs kRisk with
      | some (.jstr s) =>
          match riskMap (lowerS (pyStrip s)) with
          | some c => setO o kReputation (.jobj (setO fs kRisk (.jstr c)))
          | none => o
      | _ => o
  | _ => o

/-- Python `round` on a rational (round-half-to-even, as for floats). -/
def pyRound (q : ℚ) : ℤ :=
  if q - ⌊q⌋ < 1/2 then ⌊q⌋
  else if 1/2 < q - ⌊q⌋ then ⌊q⌋ + 1
  else if 2 ∣ ⌊q⌋ then ⌊q⌋ else ⌊q⌋ + 1

/-- Priority coercion (lines 269–274): digit strings are parsed, floats are
rounded to the nearest integer; anything else is left untouched. -/
def coercePrio (o : Obj) : Obj :=
  match getO o kPriority with
  | some (.jstr s) =>
      if pyIsDigits (pyStrip s) then setO o kPriority (.jint (digitsToNat (pyStrip s))) else o
  | some (.jfloat q) => setO o kPriority (.jint (pyRound q))
  | _ => o

/-- Decimal-literal fragment of Python `float(...)` (the paths exercised by
the scripts; exponents and inf/nan are out of model). -/
def parseFloat (s : Str) : Option ℚ :=
  let sgn : ℚ × Str :=
    match s with
    | '-' :: rest => (-1, rest)
    | '+' :: rest => (1, rest)
    | _ => (1, s)
  let ip := sgn.2.takeWhile Char.isDigit
  match sgn.2.dropWhile Char.isDigit with
  | [] => if ip = [] then none else some (sgn.1 * digitsToNat ip)
  | '.' :: fp =>
      if fp.all Char.isDigit && !(ip = [] && fp = []) then
        some (sgn.1 * ((digitsToNat ip : ℚ) + (digitsToNat fp : ℚ) / (10 : ℚ) ^ fp.length))
      else none
  | _ => none

/-- Confidence coercion (lines 276–282): strings are parsed as floats; a
parse failure leaves the value untouched (`except: pass`). -/
def coerceConf (o : Obj) : Obj :=
  match getO o kConfidence with
  | some (.jstr s) =>
      match parseFloat (pyStrip s) with
      | some q => setO o kConfidence (.jfloat q)
      | none => o
  | _ => o

/-- Listification of `entities` / `metros` (lines 284–290): a non-blank
string becomes a one-element list, a non-list becomes the empty list, a list
is kept; an absent key reads as `[]` and is left absent. -/
def listifyIn (o : Obj) (k : Str) : Obj :=
  match (getO o k).getD (.jarr []) with
  | .jstr s => if pyStrip s = [] then setO o k (.jarr []) else setO o k (.jarr [.jstr (pyStrip s)])
  | .jarr _ => o
  | _ => setO o k (.jarr [])

/-- Full normalization block of `openai_classify` (lines 225–306), in source
order, ending with the second sentiment/risk casing remaps. -/
def normalizeTriage (d0 : Obj) : Obj :=
  let d := remapSentA d0
  let d := ensureDefaults d
  let d := coerceRiskIn d
  let d := coercePrio d
  let d := coerceConf d
  let d := listifyIn d kEntities
  let d := listifyIn d kMetros
  let d := setdefO d kNotes (.jstr [])
  let d := remapSentB d
  riskRemapB d

/-! ### Shape and frame lemmas for the normalization rules -/

theorem getO_setdefO_isSome (o : Obj) (k : Str) (v : JVal) :
    (getO (setdefO o k v) k).isSome := by
  unfold setdefO
  cases h : getO o k with
  | some w => simp [h]
  | none => simp [getO_setO_self]

theorem getO_setdefO_ne (o : Obj) {k k' : Str} (hne : k' ≠ k) (v : JVal) :
    getO (setdefO o k v) k' = getO o k' := by
  unfold setdefO
  cases h : getO o k with
  | some w => rfl
  | none => exact getO_setO_ne o hne v

theorem setdefO_of_present {o : Obj} {k : Str} (v : JVal)
    (h : (getO o k).isSome) : setdefO o k v = o := by
  unfold setdefO
  cases hg : getO o k with
  | some w => rfl
  | none => rw [hg] at h; simp at h

theorem ensureObj_obj (o : Obj) (k : Str) :
    ∃ fs, getO (ensureObj o k) k = some (.jobj fs) := by
  unfold ensureObj
  cases h : getO o k with
  | none => exact ⟨[], by simp [getO_setO_self]⟩
  | some w =>
      cases w with
      | jobj fs => exact ⟨fs, h⟩
      | jstr s => exact ⟨[], by simp [getO_setO_self]⟩
      | jint n => exact ⟨[], by simp [getO_setO_self]⟩
      | jfloat q => exact ⟨[], by simp [getO_setO_self]⟩
      | jbool b => exact ⟨[], by simp [getO_setO_self]⟩
      | jnull => exact ⟨[], by simp [getO_setO_self]⟩
      | jarr xs => exact ⟨[], by simp [getO_setO_self]⟩

theorem ensureObj_of_obj {o : Obj} {k : Str} {fs : Obj}
    (h : getO o k = some (.jobj fs)) : ensureObj o k = o := by
  unfold ensureObj
  rw [h]

theorem getO_ensureObj_ne (o : Obj) {k k' : Str} (hne : k' ≠ k) :
    getO (ensureObj o k) k' = getO o k' := by
  unfold ensureObj
  cases h : getO o k with
  | none => exact getO_setO_ne o hne _
  | some w =>
      cases w with
      | jobj fs => rfl
      | jstr s => exact getO_setO_ne o hne _
      | jint n => exact getO_setO_ne o hne _
      | jfloat q => exact getO_setO_ne o hne _
      | jbool b => exact getO_setO_ne o hne _
      | jnull => exact getO_setO_ne o hne _
      | jarr xs => exact getO_setO_ne o hne _

theorem setDefIn_of_obj {o : Obj} {k : Str} {fs : Obj} (kk : Str) (v : JVal)
    (h : getO o k = some (.jobj fs)) :
    getO (setDefIn o k kk v) k = some (.jobj (setdefO fs kk v)) := by
  unfold setDefIn
  rw [h, getO_setO_self]

theorem setDefIn_frame (o : Obj) {k k' : Str} (hne : k' ≠ k) (kk : Str) (v : JVal) :
    getO (setDefIn o k kk v) k' = getO o k' := by
  unfold setDefIn
  cases h : getO o k with
  | none => rfl
  | some w =>
      cases w with
      | jobj fs => exact getO_setO_ne o hne _
      | jstr s => rfl
      | jint n => rfl
      | jfloat q => rfl
      | jbool b => rfl
      | jnull => rfl
      | jarr xs => rfl

theorem setDefIn_of_present {o : Obj} {k : Str} {fs : Obj} {kk : Str} (v : JVal)
    (h : getO o k = some (.jobj fs)) (hp : (getO fs kk).isSome) :
    setDefIn o k kk v = o := by
  unfold setDefIn
  rw [h]
  show setO o k (.jobj (setdefO fs kk v)) = o
  rw [setdefO_of_present v hp, setO_same h]

/-- Shape of a nested object after `ensureDefaults`:
a dict is present at `k` and all the listed inner keys are present. -/
def objWith (o : Obj) (k : Str) (kks : List Str) : Prop :=
  ∃ fs, getO o k = some (.jobj fs) ∧ ∀ kk ∈ kks, (getO fs kk).isSome

theorem objWith_of_getO_eq {o o' : Obj} {k : Str} {kks : List Str}
    (heq : getO o' k = getO o k) (h : objWith o k kks) : objWith o' k kks := by
  obtain ⟨fs, hget, hin⟩ := h
  exact ⟨fs, heq.trans hget, hin⟩

theorem objWith_extend {o : Obj} {k : Str} {kks : List Str} (kk : Str) (v : JVal)
    (h : objWith o k kks) : objWith (setDefIn o k kk v) k (kk :: kks) := by
  obtain ⟨fs, hget, hin⟩ := h
  refine ⟨setdefO fs kk v, setDefIn_of_obj kk v hget, ?_⟩
  intro kk' hkk'
  rcases List.mem_cons.mp hkk' with rfl | hkk'
  · exact getO_setdefO_isSome fs kk' v
  · by_cases he : kk' = kk
    · subst he; exact getO_setdefO_isSome fs kk' v
    · rw [getO_setdefO_ne fs he v]; exact hin kk' hkk'

theorem objWith_mono {o : Obj} {k : Str} {kks kks' : List Str}
    (h : objWith o k kks) (sub : ∀ kk ∈ kks', kk ∈ kks) : objWith o k kks' := by
  obtain ⟨fs, hget, hin⟩ := h
  exact ⟨fs, hget, fun kk hkk => hin kk (sub kk hkk)⟩

theorem fillLead_objWith {o : Obj} (h : objWith o kLead []) :
    objWith (fillLead o) kLead [kDraft, kTitle] :=
  objWith_extend kDraft _ (objWith_extend kTitle _ h)

theorem fillLead_frame (o : Obj) {k : Str} (hne : k ≠ kLead) :
    getO (fillLead o) k = getO o k := by
  unfold fillLead
  rw [setDefIn_frame _ hne, setDefIn_frame _ hne]

theorem fillRep_objWith {o : Obj} (h : objWith o kReputation []) :
    objWith (fillRep o) kReputation [kRisk, kDraft, kTitle] :=
  objWith_extend kRisk _ (objWith_extend kDraft _ (objWith_extend kTitle _ h))

theorem fillRep_frame (o : Obj) {k : Str} (hne : k ≠ kReputation) :
    getO (fillRep o) k = getO o k := by
  unfold fillRep
  rw [setDefIn_frame _ hne, setDefIn_frame _ hne, setDefIn_frame _ hne]

theorem fillContent_objWith {o : Obj} (h : objWith o kContent []) :
    objWith (fillContent o) kContent [kCanva, kOutline, kAngle, kTitle] :=
  objWith_extend kCanva _ (objWith_extend kOutline _
    (objWith_extend kAngle _ (objWith_extend kTitle _ h)))

theorem fillContent_frame (o : Obj) {k : Str} (hne : k ≠ kContent) :
    getO (fillContent o) k = getO o k := by
  unfold fillContent
  rw [setDefIn_frame _ hne, setDefIn_frame _ hne, setDefIn_frame _ hne, setDefIn_frame _ hne]

theorem fillRoutes_objWith {o : Obj} (h : objWith o kRoutes []) :
    objWith (fillRoutes o) kRoutes [kContent, kReputation, kLead] :=
  objWith_extend kContent _ (objWith_extend kReputation _ (objWith_extend kLead _ h))

theorem fillRoutes_frame (o : Obj) {k : Str} (hne : k ≠ kRoutes) :
    getO (fillRoutes o) k = getO o k := by
  unfold fillRoutes
  rw [setDefIn_frame _ hne, setDefIn_frame _ hne, setDefIn_frame _ hne]

theorem ensureDefaults_facts (o : Obj) :
    objWith (ensureDefaults o) kLead [kDraft, kTitle] ∧
      objWith (ensureDefaults o) kReputation [kRisk, kDraft, kTitle] ∧
      objWith (ensureDefaults o) kContent [kCanva, kOutline, kAngle, kTitle] ∧
      objWith (ensureDefaults o) kRoutes [kContent, kReputation, kLead] := by
  have e4 := ensureObj (ensureObj (ensureObj (ensureObj o kLead) kReputation) kContent) kRoutes
  have hLead0 : objWith (ensureObj (ensureObj (ensureObj (ensureObj o kLead) kReputation)
      kContent) kRoutes) kLead [] := by
    obtain ⟨fs, hfs⟩ := ensureObj_obj o kLead
    refine ⟨fs, ?_, by simp⟩
    rw [getO_ensureObj_ne _ (by decide), getO_ensureObj_ne _ (by decide),
      getO_ensureObj_ne _ (by decide)]
    exact hfs
  have hRep0 : objWith (ensureObj (ensureObj (ensureObj (ensureObj o kLead) kReputation)
      kContent) kRoutes) kReputation [] := by
    obtain ⟨fs, hfs⟩ := ensureObj_obj (ensureObj o kLead) kReputation
    refine ⟨fs, ?_, by simp⟩
    rw [getO_ensureObj_ne _ (by decide), getO_ensureObj_ne _ (by decide)]
    exact hfs
  have hCont0 : objWith (ensureObj (ensureObj (ensureObj (ensureObj o kLead) kReputation)
      kContent) kRoutes) kContent [] := by
    obtain ⟨fs, hfs⟩ := ensureObj_obj (ensureObj (ensureObj o kLead) kReputation) kContent
    refine ⟨fs, ?_, by simp⟩
    rw [getO_ensureObj_ne _ (by decide)]
    exact hfs
  have hRoutes0 : objWith (ensureObj (ensureObj (ensureObj (ensureObj o kLead) kReputation)
      kContent) kRoutes) kRoutes [] := by
    obtain ⟨fs, hfs⟩ := ensureObj_obj (ensureObj (ensureObj (ensureObj o kLead) kReputation)
      kContent) kRoutes
    exact ⟨fs, hfs, by simp⟩
  refine ⟨?_, ?_, ?_, ?_⟩
  · refine objWith_of_getO_eq (fillRoutes_frame _ (by decide)) ?_
    refine objWith_of_getO_eq (fillContent_frame _ (by decide)) ?_
    refine objWith_of_getO_eq (fillRep_frame _ (by decide)) ?_
    exact fillLead_objWith hLead0
  · refine objWith_of_getO_eq (fillRoutes_frame _ (by decide)) ?_
    refine objWith_of_getO_eq (fillContent_frame _ (by decide)) ?_
    refine fillRep_objWith ?_
    exact objWith_of_getO_eq (fillLead_frame _ (by decide)) hRep0
  · refine objWith_of_getO_eq (fillRoutes_frame _ (by decide)) ?_
    refine fillContent_objWith ?_
    refine objWith_of_getO_eq (fillRep_frame _ (by decide)) ?_
    exact objWith_of_getO_eq (fillLead_frame _ (by decide)) hCont0
  · refine fillRoutes_objWith ?_
    refine objWith_of_getO_eq (fillContent_frame _ (by decide)) ?_
    refine objWith_of_getO_eq (fillRep_frame _ (by decide)) ?_
    exact objWith_of_getO_eq (fillLead_frame _ (by decide)) hRoutes0

theorem fillLead_of_filled {o : Obj} (h : objWith o kLead [kDraft, kTitle]) :
    fillLead o = o := by
  obtain ⟨fs, hget, hin⟩ := h
  unfold fillLead
  rw [setDefIn_of_present _ hget (hin kTitle (by simp)),
    setDefIn_of_present _ hget (hin kDraft (by simp))]

theorem fillRep_of_filled {o : Obj} (h : objWith o kReputation [kRisk, kDraft, kTitle]) :
    fillRep o = o := by
  obtain ⟨fs, hget, hin⟩ := h
  unfold fillRep
  rw [setDefIn_of_present _ hget (hin kTitle (by simp)),
    setDefIn_of_present _ hget (hin kDraft (by simp)),
    setDefIn_of_present _ hget (hin kRisk (by simp))]

theorem fillContent_of_filled {o : Obj}
    (h : objWith o kContent [kCanva, kOutline, kAngle, kTitle]) :
    fillContent o = o := by
  obtain ⟨fs, hget, hin⟩ := h
  unfold fillContent
  rw [setDefIn_of_present _ hget (hin kTitle (by simp)),
    setDefIn_of_present _ hget (hin kAngle (by simp)),
    setDefIn_of_present _ hget (hin kOutline (by simp)),
    setDefIn_of_present _ hget (hin kCanva (by simp))]

theorem fillRoutes_of_filled {o : Obj}
    (h : objWith o kRoutes [kContent, kReputation, kLead]) :
    fillRoutes o = o := by
  obtain ⟨fs, hget, hin⟩ := h
  unfold fillRoutes
  rw [setDefIn_of_present _ hget (hin kLead (by simp)),
    setDefIn_of_present _ hget (hin kReputation (by simp)),
    setDefIn_of_present _ hget (hin kContent (by simp))]

theorem ensureDefaults_idem (o : Obj) :
    ensureDefaults (ensureDefaults o) = ensureDefaults o := by
  obtain ⟨hL, hR, hC, hRt⟩ := ensureDefaults_facts o
  set D := ensureDefaults o with hD
  obtain ⟨fsL, hLg, hLi⟩ := hL
  obtain ⟨fsR, hRg, hRi⟩ := hR
  obtain ⟨fsC, hCg, hCi⟩ := hC
  obtain ⟨fsRt, hRtg, hRti⟩ := hRt
  rw [ensureDefaults.eq_def]
  rw [ensureObj_of_obj hLg, ensureObj_of_obj hRg, ensureObj_of_obj hCg, ensureObj_of_obj hRtg,
    fillLead_of_filled ⟨fsL, hLg, hLi⟩, fillRep_of_filled ⟨fsR, hRg, hRi⟩,
    fillContent_of_filled ⟨fsC, hCg, hCi⟩, fillRoutes_of_filled ⟨fsRt, hRtg, hRti⟩]

/-! ### Idempotence of the value coercions -/

/-- View of an optional value as a Python `str` check (`isinstance(v, str)`). -/
def asStr : Option JVal → Option Str
  | some (.jstr s) => some s
  | _ => none

theorem remapSentA_of_str {o : Obj} {s : Str} (hg : getO o kSentiment = some (.jstr s)) :
    remapSentA o = setO o kSentiment (.jstr ((sentMap (lowerS (pyStrip s))).getD s)) := by
  unfold remapSentA
  rw [hg]

theorem remapSentA_of_notstr {o : Obj} (hg : asStr (getO o kSentiment) = none) :
    remapSentA o = o := by
  unfold remapSentA
  cases h : getO o kSentiment with
  | none => rfl
  | some v =>
      cases v with
      | jstr s => rw [h] at hg; simp [asStr] at hg
      | jint n => rfl
      | jfloat q => rfl
      | jbool b => rfl
      | jnull => rfl
      | jarr xs => rfl
      | jobj fs => rfl

theorem sentMap_canonical {s c : Str} (h : sentMap s = some c) :
    sentMap (lowerS (pyStrip c)) = some c := by
  unfold sentMap at h
  split_ifs at h <;> simp_all <;> subst h <;> decide

theorem remapSentA_idem (o : Obj) : remapSentA (remapSentA o) = remapSentA o := by
  cases hga : asStr (getO o kSentiment) with
  | none => rw [remapSentA_of_notstr hga, remapSentA_of_notstr hga]
  | some s =>
      have hg : getO o kSentiment = some (.jstr s) := by
        unfold asStr at hga
        cases h : getO o kSentiment with
        | none => rw [h] at hga; simp at hga
        | some v =>
            cases v <;> rw [h] at hga <;> simp_all
      have h1 := remapSentA_of_str hg
      have hfix : (sentMap (lowerS (pyStrip ((sentMap (lowerS (pyStrip s))).getD s)))).getD
          ((sentMap (lowerS (pyStrip s))).getD s) = (sentMap (lowerS (pyStrip s))).getD s := by
        cases hm : sentMap (lowerS (pyStrip s)) with
        | none => simp [hm]
        | some c => simp [sentMap_canonical hm]
      have hg2 : getO (remapSentA o) kSentiment
          = some (.jstr ((sentMap (lowerS (pyStrip s))).getD s)) := by
        rw [h1]; exact getO_setO_self o kSentiment _
      rw [remapSentA_of_str hg2, hfix, h1, setO_setO]

/-- Membership in the allowed risk enum. -/
def riskEnum (v : JVal) : Prop :=
  v = .jstr (chars "Low") ∨ v = .jstr (chars "Medium") ∨ v = .jstr (chars "High")

theorem coerceRisk_mem (v : JVal) : riskEnum (coerceRisk v) := by
  unfold riskEnum
  cases v with
  | jint n => simp only [coerceRisk]; split_ifs <;> simp
  | jfloat q => simp only [coerceRisk]; split_ifs <;> simp
  | jbool b => cases b <;> simp [coerceRisk]
  | jstr s =>
      simp only [coerceRisk]
      cases hm : riskMap (lowerS (pyStrip s)) with
      | none => simp
      | some c =>
          simp only []
          unfold riskMap at hm
          split_ifs at hm
          · left; simp_all
          · right; left; simp_all
          · right; right; simp_all
  | jnull => simp [coerceRisk]
  | jarr xs => simp [coerceRisk]
  | jobj fs => simp [coerceRisk]

theorem coerceRisk_fixed (v : JVal) : coerceRisk (coerceRisk v) = coerceRisk v := by
  rcases coerceRisk_mem v with h | h | h <;> rw [h] <;> rfl

theorem coerceRiskIn_of_obj {o : Obj} {fs : Obj}
    (h : getO o kReputation = some (.jobj fs)) :
    coerceRiskIn o = setO o kReputation
      (.jobj (setO fs kRisk (coerceRisk ((getO fs kRisk).getD (.jstr (chars "Low")))))) := by
  unfold coerceRiskIn
  rw [h]

theorem coerceRiskIn_idem (o : Obj) : coerceRiskIn (coerceRiskIn o) = coerceRiskIn o := by
  cases hg : getO o kReputation with
  | none =>
      have h1 : coerceRiskIn o = o := by unfold coerceRiskIn; rw [hg]
      rw [h1, h1]
  | some v =>
      cases v with
      | jobj fs =>
          have h1 := coerceRiskIn_of_obj hg
          set cv := coerceRisk ((getO fs kRisk).getD (.jstr (chars "Low"))) with hcv
          have hg2 : getO (coerceRiskIn o) kReputation = some (.jobj (setO fs kRisk cv)) := by
            rw [h1]; exact getO_setO_self o kReputation _
          rw [coerceRiskIn_of_obj hg2]
          rw [getO_setO_self fs kRisk cv]
          show setO (coerceRiskIn o) kReputation
              (.jobj (setO (setO fs kRisk cv) kRisk (coerceRisk cv))) = coerceRiskIn o
          rw [setO_setO, hcv, coerceRisk_fixed, ← hcv, h1, setO_setO]
      | jstr s =>
          have h1 : coerceRiskIn o = o := by unfold coerceRiskIn; rw [hg]
          rw [h1, h1]
      | jint n =>
          have h1 : coerceRiskIn o = o := by unfold coerceRiskIn; rw [hg]
          rw [h1, h1]
      | jfloat q =>
          have h1 : coerceRiskIn o = o := by unfold coerceRiskIn; rw [hg]
          rw [h1, h1]
      | jbool b =>
          have h1 : coerceRiskIn o = o := by unfold coerceRiskIn; rw [hg]
          rw [h1, h1]
      | jnull =>
          have h1 : coerceRiskIn o = o := by unfold coerceRiskIn; rw [hg]
          rw [h1, h1]
      | jarr xs =>
          have h1 : coerceRiskIn o = o := by unfold coerceRiskIn; rw [hg]
          rw [h1, h1]

theorem coercePrio_of_int {o : Obj} {n : ℤ} (hg : getO o kPriority = some (.jint n)) :
    coercePrio o = o := by
  unfold coercePrio
  rw [hg]

theorem coercePrio_idem (o : Obj) : coercePrio (coercePrio o) = coercePrio o := by
  have hcase : coercePrio o = o ∨ ∃ n : ℤ, coercePrio o = setO o kPriority (.jint n) := by
    unfold coercePrio
    cases hg : getO o kPriority with
    | none => exact Or.inl rfl
    | some v =>
        cases v with
        | jstr s =>
            simp only []
            by_cases hd : pyIsDigits (pyStrip s) = true
            · exact Or.inr ⟨_, by rw [if_pos hd]⟩
            · exact Or.inl (by rw [if_neg hd])
        | jfloat q => exact Or.inr ⟨_, rfl⟩
        | jint n => exact Or.inl rfl
        | jbool b => exact Or.inl rfl
        | jnull => exact Or.inl rfl
        | jarr xs => exact Or.inl rfl
        | jobj fs => exact Or.inl rfl
  rcases hcase with h | ⟨n, h⟩
  · rw [h, h]
  · rw [h]
    exact coercePrio_of_int (getO_setO_self o kPriority (.jint n))

theorem coerceConf_of_float {o : Obj} {q : ℚ} (hg : getO o kConfidence = some (.jfloat q)) :
    coerceConf o = o := by
  unfold coerceConf
  rw [hg]

theorem coerceConf_idem (o : Obj) : coerceConf (coerceConf o) = coerceConf o := by
  have hcase : coerceConf o = o ∨ ∃ q : ℚ, coerceConf o = setO o kConfidence (.jfloat q) := by
    unfold coerceConf
    cases hg : getO o kConfidence with
    | none => exact Or.inl rfl
    | some v =>
        cases v with
        | jstr s =>
            simp only []
            cases hp : parseFloat (pyStrip s) with
            | some q => exact Or.inr ⟨q, rfl⟩
            | none => exact Or.inl rfl
        | jfloat q => exact Or.inl rfl
        | jint n => exact Or.inl rfl
        | jbool b => exact Or.inl rfl
        | jnull => exact Or.inl rfl
        | jarr xs => exact Or.inl rfl
        | jobj fs => exact Or.inl rfl
  rcases hcase with h | ⟨q, h⟩
  · rw [h, h]
  · rw [h]
    exact coerceConf_of_float (getO_setO_self o kConfidence (.jfloat q))

theorem listifyIn_of_arr {o : Obj} {k : Str} {xs : List JVal}
    (hg : getO o k = some (.jarr xs)) : listifyIn o k = o := by
  unfold listifyIn
  rw [hg]
  rfl

theorem listifyIn_idem (o : Obj) (k : Str) : listifyIn (listifyIn o k) k = listifyIn o k := by
  have hcase : listifyIn o k = o ∨ ∃ xs, listifyIn o k = setO o k (.jarr xs) := by
    unfold listifyIn
    cases hg : getO o k with
    | none => exact Or.inl rfl
    | some v =>
        cases v with
        | jstr s =>
            simp only [Option.getD_some]
            by_cases hb : pyStrip s = []
            · exact Or.inr ⟨[], by rw [if_pos hb]⟩
            · exact Or.inr ⟨_, by rw [if_neg hb]⟩
        | jarr xs => exact Or.inl rfl
        | jint n => exact Or.inr ⟨[], rfl⟩
        | jfloat q => exact Or.inr ⟨[], rfl⟩
        | jbool b => exact Or.inr ⟨[], rfl⟩
        | jnull => exact Or.inr ⟨[], rfl⟩
        | jobj fs => exact Or.inr ⟨[], rfl⟩
  rcases hcase with h | ⟨xs, h⟩
  · rw [h, h]
  · rw [h]
    exact listifyIn_of_arr (getO_setO_self o k (.jarr xs))

/-! ### Schema validation (`TRIAGE_SCHEMA`, classify_and_route.py lines 39–94)

The jsonschema library under its current default draft: `"integer"` also
matches a float with zero fractional part, and Python `bool` is matched by
`"boolean"` only. -/

/-- Value is a JSON string. -/
def isStr : JVal → Bool
  | .jstr _ => true
  | _ => false

/-- Numeric view of a JSON value (`bool` is not a JSON number here). -/
def asNum : JVal → Option ℚ
  | .jint n => some (n : ℚ)
  | .jfloat q => some q
  | _ => none

/-- Boolean view of a JSON value. -/
def asBool : JVal → Option Bool
  | .jbool b => some b
  | _ => none

/-- String view of a JSON value. -/
def asStrV : JVal → Option Str
  | .jstr s => some s
  | _ => none

/-- String-list view of a JSON value. -/
def asStrList : JVal → Option (List Str)
  | .jarr xs => xs.mapM asStrV
  | _ => none

/-- jsonschema `{"type":"integer","minimum":lo,"maximum":hi}`. -/
def isIntBetween (v : JVal) (lo hi : ℚ) : Bool :=
  match v with
  | .jint n => decide (lo ≤ (n : ℚ) ∧ (n : ℚ) ≤ hi)
  | .jfloat q => q.den == 1 && decide (lo ≤ q ∧ q ≤ hi)
  | _ => false

/-- jsonschema `{"type":"number","minimum":lo,"maximum":hi}`. -/
def isNumBetween (v : JVal) (lo hi : ℚ) : Bool :=
  match v with
  | .jint n => decide (lo ≤ (n : ℚ) ∧ (n : ℚ) ≤ hi)
  | .jfloat q => decide (lo ≤ q ∧ q ≤ hi)
  | _ => false

/-- Key holds a string. -/
def strAt (fs : Obj) (k : Str) : Bool :=
  match getO fs k with
  | some (.jstr _) => true
  | _ => false

/-- Key holds a boolean. -/
def boolAt (fs : Obj) (k : Str) : Bool :=
  match getO fs k with
  | some (.jbool _) => true
  | _ => false

/-- Key holds an array of at most `n` strings. -/
def strArrAtMax (fs : Obj) (k : Str) (n : Nat) : Bool :=
  match getO fs k with
  | some (.jarr xs) => xs.all isStr && decide (xs.length ≤ n)
  | _ => false

/-- Key holds a string drawn from an enum. -/
def strEnumAt (fs : Obj) (k : Str) (allowed : List Str) : Bool :=
  match getO fs k with
  | some (.jstr s) => decide (s ∈ allowed)
  | _ => false

/-- Closed object: every present key is declared (`additionalProperties: false`). -/
def keysBound (fs : Obj) (ks : List Str) : Bool :=
  fs.all (fun p => decide (p.1 ∈ ks))

/-- The `routes` sub-schema. -/
def validRoutes (v : JVal) : Bool :=
  match v with
  | .jobj fs =>
      keysBound fs [kLead, kReputation, kContent] &&
        boolAt fs kLead && boolAt fs kReputation && boolAt fs kContent
  | _ => false

/-- The `lead` sub-schema. -/
def validLead (v : JVal) : Bool :=
  match v with
  | .jobj fs => keysBound fs [kTitle, kDraft] && strAt fs kTitle && strAt fs kDraft
  | _ => false

/-- The `reputation` sub-schema. -/
def validRep (v : JVal) : Bool :=
  match v with
  | .jobj fs =>
      keysBound fs [kTitle, kDraft, kRisk] && strAt fs kTitle && strAt fs kDraft &&
        strEnumAt fs kRisk [chars "Low", chars "Medium", chars "High"]
  | _ => false

/-- The `content` sub-schema. -/
def validContent (v : JVal) : Bool :=
  match v with
  | .jobj fs =>
      keysBound fs [kTitle, kAngle, kOutline, kCanva] && strAt fs kTitle &&
        strAt fs kAngle && strArrAtMax fs kOutline 12 && strArrAtMax fs kCanva 6
  | _ => false

/-- Validation of a normalized object against `TRIAGE_SCHEMA`. -/
def validTriage (o : Obj) : Bool :=
  keysBound o [kSentiment, kPriority, kCompliance, kRoutes, kEntities, kMetros,
      kConfidence, kLead, kReputation, kContent, kNotes] &&
    strEnumAt o kSentiment
      [chars "Positive", chars "Neutral", chars "Negative", chars "Mixed"] &&
    (match getO o kPriority with
     | some v => isIntBetween v 1 5
     | none => false) &&
    boolAt o kCompliance &&
    (match getO o kRoutes with
     | some v => validRoutes v
     | none => false) &&
    strArrAtMax o kEntities 20 &&
    strArrAtMax o kMetros 10 &&
    (match getO o kConfidence with
     | some v => isNumBetween v 0 1
     | none => false) &&
    (match getO o kLead with
     | some v => validLead v
     | none => false) &&
    (match getO o kReputation with
     | some v => validRep v
     | none => false) &&
    (match getO o kContent with
     | some v => validContent v
     | none => false) &&
    strAt o kNotes

/-! ### Escalation (classify_and_route.py lines 310–316) -/

/-- Python `x is True`. -/
def pyIsTrue : JVal → Bool
  | .jbool b => b
  | _ => false

/-- Python `x <= q` on a JSON value (`none` when Python would raise
`TypeError`); `bool` compares as 0/1. -/
def pyLE (v : JVal) (q : ℚ) : Option Bool :=
  match v with
  | .jint n => some (decide ((n : ℚ) ≤ q))
  | .jfloat x => some (decide (x ≤ q))
  | .jbool b => some (decide ((if b then (1 : ℚ) else 0) ≤ q))
  | _ => none

/-- Python `x < q` on a JSON value. -/
def pyLT (v : JVal) (q : ℚ) : Option Bool :=
  match v with
  | .jint n => some (decide ((n : ℚ) < q))
  | .jfloat x => some (decide (x < q))
  | .jbool b => some (decide ((if b then (1 : ℚ) else 0) < q))
  | _ => none

/-- Model of `should_escalate(t)`, with Python's short-circuit `or` and the
dict accesses of the source (`none` = the access or comparison raises). -/
def shouldEscalateO (t : Obj) : Option Bool :=
  match getO t kCompliance with
  | none => none
  | some c =>
      if pyIsTrue c then some true
      else
        match getO t kRoutes with
        | none => none
        | some r =>
            match jGet r kReputation with
            | none => none
            | some rr =>
                if pyIsTrue rr then some true
                else
                  match getO t kPriority with
                  | none => none
                  | some p =>
                      match pyLE p 2 with
                      | none => none
                      | some pb =>
                          if pb then some true
                          else
                            match getO t kConfidence with
                            | none => none
                            | some cf => pyLT cf (mkRat 7 10)

/-! ### Typed triage results and the routing/loop model (main, lines 318–407) -/

/-- A validated triage result, as consumed by the router. -/
structure TriageR where
  sentiment : Str
  priority : ℚ
  compliance : Bool
  rLead : Bool
  rRep : Bool
  rCont : Bool
  entities : List Str
  metros : List Str
  confidence : ℚ
  leadTitle : Str
  leadDraft : Str
  repTitle : Str
  repDraft : Str
  riskLevel : Str
  contTitle : Str
  contAngle : Str
  contBullets : List Str
  contPrompts : List Str
  notes : Str
deriving DecidableEq

/-- Typed reading of the `routes` object. -/
def parseRoutesP (v : JVal) : Option (Bool × Bool × Bool) := do
  let rl ← (jGet v kLead).bind asBool
  let rr ← (jGet v kReputation).bind asBool
  let rc ← (jGet v kContent).bind asBool
  return (rl, rr, rc)

/-- Typed reading of the `lead` object. -/
def parseLeadP (v : JVal) : Option (Str × Str) := do
  let lt ← (jGet v kTitle).bind asStrV
  let ld ← (jGet v kDraft).bind asStrV
  return (lt, ld)

/-- Typed reading of the `reputation` object. -/
def parseRepP (v : JVal) : Option (Str × Str × Str) := do
  let rt ← (jGet v kTitle).bind asStrV
  let rd ← (jGet v kDraft).bind asStrV
  let rk ← (jGet v kRisk).bind asStrV
  return (rt, rd, rk)

/-- Typed reading of the `content` object. -/
def parseContP (v : JVal) : Option (Str × Str × List Str × List Str) := do
  let ct ← (jGet v kTitle).bind asStrV
  let ca ← (jGet v kAngle).bind asStrV
  let cob ← (jGet v kOutline).bind asStrList
  let cop ← (jGet v kCanva).bind asStrList
  return (ct, ca, cob, cop)

/-- Typed reading of a validated triage object. -/
def parseTriage (o : Obj) : Option TriageR := do
  let sent ← (getO o kSentiment).bind asStrV
  let pv ← (getO o kPriority).bind asNum
  let cb ← (getO o kCompliance).bind asBool
  let r ← (getO o kRoutes).bind parseRoutesP
  let ents ← (getO o kEntities).bind asStrList
  let mets ← (getO o kMetros).bind asStrList
  let cf ← (getO o kConfidence).bind asNum
  let l ← (getO o kLead).bind parseLeadP
  let rp ← (getO o kReputation).bind parseRepP
  let ct ← (getO o kContent).bind parseContP
  let nts ← (getO o kNotes).bind asStrV
  return ⟨sent, pv, cb, r.1, r.2.1, r.2.2, ents, mets, cf, l.1, l.2, rp.1, rp.2.1, rp.2.2,
    ct.1, ct.2.1, ct.2.2.1, ct.2.2.2, nts⟩

/-- Mirror of `should_escalate` on the typed reading of a validated result. -/
def escalateT (t : TriageR) : Bool :=
  t.compliance || t.rRep || decide (t.priority ≤ 2) || decide (t.confidence < mkRat 7 10)

/-- Mention page state: raw extracted property values, the triage-derived
fields, and the three queue relation lists. -/
structure MRec where
  platform : Str
  url : Str
  text : Str
  author : Str
  sentiment : Option Str
  priority : Option ℚ
  compliance : Option Bool
  entities : List Str
  metros : List Str
  leadsQ : List Nat
  repQ : List Nat
  contQ : List Nat
deriving DecidableEq

/-- A created queue page (id and title). -/
structure QRec where
  id : Nat
  title : Str
deriving DecidableEq

/-- The three queue databases plus the id supply for created pages. -/
structure DbSt where
  leads : List QRec
  reps : List QRec
  conts : List QRec
  nextId : Nat
deriving DecidableEq

/-- Python `x or y` on strings. -/
def pyOrS (x y : Str) : Str := if x = [] then y else x

/-- Destination-specific fallback title
`f"<Dest> — {mention['platform']} — {mention['author']}"` (the payload's
platform already carries the `or "Other"` default). -/
def fallbackTitle (dest : Str) (m : MRec) : Str :=
  dest ++ chars " — " ++ pyOrS m.platform (chars "Other") ++ chars " — " ++ m.author

/-- Lead routing (lines 385–390): create a queue page and point the relation
at it iff the route flag is set and no relation exists yet. -/
def routeLead (st : DbSt) (m : MRec) (t : TriageR) : DbSt × MRec :=
  if t.rLead = true ∧ m.leadsQ = [] then
    let title := pyStrip (pyOrS t.leadTitle (fallbackTitle (chars "Lead") m))
    ({ st with leads := st.leads ++ [⟨st.nextId, title⟩], nextId := st.nextId + 1 },
      { m with leadsQ := [st.nextId] })
  else (st, m)

/-- Reputation routing (lines 392–397). -/
def routeRep (st : DbSt) (m : MRec) (t : TriageR) : DbSt × MRec :=
  if t.rRep = true ∧ m.repQ = [] then
    let title := pyStrip (pyOrS t.repTitle (fallbackTitle (chars "Reputation") m))
    ({ st with reps := st.reps ++ [⟨st.nextId, title⟩], nextId := st.nextId + 1 },
      { m with repQ := [st.nextId] })
  else (st, m)

/-- Content routing (lines 399–404). -/
def routeCont (st : DbSt) (m : MRec) (t : TriageR) : DbSt × MRec :=
  if t.rCont = true ∧ m.contQ = [] then
    let title := pyStrip (pyOrS t.contTitle (fallbackTitle (chars "Content") m))
    ({ st with conts := st.conts ++ [⟨st.nextId, title⟩], nextId := st.nextId + 1 },
      { m with contQ := [st.nextId] })
  else (st, m)

/-- The Router (lines 380–404): the three destinations in source order. -/
def routeAll (st : DbSt) (m : MRec) (t : TriageR) : DbSt × MRec :=
  let p1 := routeLead st m t
  let p2 := routeRep p1.1 p1.2 t
  routeCont p2.1 p2.2 t

/-- Failure classes of one classification call. -/
inductive CErr where
  | transport
  | contract
deriving DecidableEq

/-- Outcome of `openai_classify` for a given raw LLM response: HTTP errors
and non-JSON text propagate (`transport`); a JSON object is normalized and
then validated, a validation failure raises (`contract`); non-object JSON
crashes the normalizer's attribute accesses and is also fatal. -/
def classifyOutcome (resp : Except CErr JVal) : Except CErr TriageR :=
  match resp with
  | .error e => .error e
  | .ok (.jobj fs) =>
      let d := normalizeTriage fs
      if validTriage d = true then
        match parseTriage d with
        | some t => .ok t
        | none => .error .contract
      else .error .contract
  | .ok _ => .error .contract

/-- Processing of one Mention in the triage loop (lines 344–407): skip when
url/text is missing, classify (pass 1), escalate to pass 2 when warranted,
then write the triage fields and run the Router.  The third component
records a raised exception; all writes happen strictly after both
classification passes. -/
def processOne (st : DbSt) (m : MRec) (r1 r2 : Except CErr JVal) :
    DbSt × MRec × Option CErr :=
  if m.url = [] ∨ m.text = [] then (st, m, none)
  else
    match classifyOutcome r1 with
    | .error e => (st, m, some e)
    | .ok t1 =>
        match (if escalateT t1 then classifyOutcome r2 else .ok t1) with
        | .error e => (st, m, some e)
        | .ok fin =>
            let m1 := { m with
              sentiment := some fin.sentiment
              priority := some fin.priority
              compliance := some fin.compliance
              entities := fin.entities
              metros := fin.metros }
            let p := routeAll st m1 fin
            (p.1, p.2, none)

/-- The triage loop over the queried pages: the body has no try/except, so a
raised exception propagates out of `main` and the remaining pages are left
untouched. -/
def runTriageLoop (st : DbSt) :
    List (MRec × Except CErr JVal × Except CErr JVal) → DbSt × List MRec × Option CErr
  | [] => (st, [], none)
  | (m, r1, r2) :: rest =>
      match processOne st m r1 r2 with
      | (st1, m1, none) =>
          let p := runTriageLoop st1 rest
          (p.1, m1 :: p.2.1, p.2.2)
      | (st1, m1, some e) => (st1, m1 :: rest.map (fun x => x.1), some e)

/-! ### Daily synthesis persistence (daily_synthesis.py lines 241–247, 339–376) -/

/-- One topic of a schema-valid synthesis response (`SYNTHESIS_SCHEMA` has
already forced every field's type). -/
structure TopicR where
  topic : Str
  audience : Str
  platformT : Str
  priority : ℚ
  hook : Str
  keyPoints : List Str
  proofPoints : List Str
  mentionIds : List Str
deriving DecidableEq

/-- Post-validation cleanup inside `openai_synthesize` (lines 241–247). -/
def synthPostTopic (t : TopicR) : TopicR :=
  { t with
    topic := (cleanOne t.topic).take 120,
    keyPoints := cleanBullets (.jarr (t.keyPoints.map .jstr)) 10,
    proofPoints := cleanBullets (.jarr (t.proofPoints.map .jstr)) 8,
    mentionIds := cleanMids (.jarr (t.mentionIds.map .jstr)) }

/-- A persisted Content page. -/
structure ContentRec where
  topicTitle : Str
  audience : Str
  platformT : Str
  priority : ℤ
  relIds : List Str
  sourceLinks : Str
deriving DecidableEq

/-- Python `int()` truncation toward zero on a rational. -/
def pyTruncQ (q : ℚ) : ℤ := if 0 ≤ q then ⌊q⌋ else ⌈q⌉

/-- Python `"\n".join(ls)`. -/
def joinNL : List Str → Str
  | [] => []
  | [x] => x
  | x :: xs => x ++ '\n' :: joinNL xs

/-- The run's `id_to_url` mapping (`id_to_url.get(mid, "")`). -/
def lookupUrl (batch : List (Str × Str)) (mid : Str) : Str :=
  match batch.find? (fun p => p.1 = mid) with
  | some p => p.2
  | none => []

/-- One iteration of the persistence loop (lines 339–374): skip short topics,
skip topics whose deduplicated id list is shorter than 2, then build the
Content page properties.  Membership of the ids in the batch is used only
for the joined source links, never as an acceptance test. -/
def mainTopicStep (batch : List (Str × Str)) (t : TopicR) : Option ContentRec :=
  let topic := pyStrip t.topic
  if topic.length < 5 then none
  else
    let mids := (dedupFirst t.mentionIds).take 15
    if mids.length < 2 then none
    else
      some
        { topicTitle := topic,
          audience := normalizeChoice (.jstr t.audience) allowedAudience (chars "Operator"),
          platformT := normalizeChoice (.jstr t.platformT) allowedPlatformTarget
            (chars "BiggerPockets"),
          priority := max 1 (min 5 (pyTruncQ t.priority)),
          relIds := mids,
          sourceLinks := (joinNL (mids.filterMap fun mid =>
            if lookupUrl batch mid = [] then none else some (lookupUrl batch mid))).take 1800 }

/-- The Content records a synthesis run persists from a validated response. -/
def synthRun (batch : List (Str × Str)) (topics : List TopicR) : List ContentRec :=
  (topics.map synthPostTopic).filterMap (mainTopicStep batch)

/-- Number of ids resolving to Mentions of the input batch. -/
def resolvableCount (batch : List (Str × Str)) (ids : List Str) : Nat :=
  (ids.filter fun i => (batch.find? (fun p => p.1 = i)).isSome).length

/-! ### Frame lemmas for the tail of the normalization chain -/

theorem remapSentA_frame (o : Obj) {k : Str} (hne : k ≠ kSentiment) :
    getO (remapSentA o) k = getO o k := by
  unfold remapSentA
  cases hg : getO o kSentiment with
  | none => rfl
  | some v =>
      cases v with
      | jstr s => exact getO_setO_ne o hne _
      | jint n => rfl
      | jfloat q => rfl
      | jbool b => rfl
      | jnull => rfl
      | jarr xs => rfl
      | jobj fs => rfl

theorem remapSentB_frame (o : Obj) {k : Str} (hne : k ≠ kSentiment) :
    getO (remapSentB o) k = getO o k := by
  unfold remapSentB
  cases hg : getO o kSentiment with
  | none => rfl
  | some v =>
      cases v with
      | jstr s =>
          show getO (match sentMap (lowerS (pyStrip s)) with
                     | some c => setO o kSentiment (.jstr c)
                     | none => o) k = getO o k
          cases sentMap (lowerS (pyStrip s)) with
          | some c => exact getO_setO_ne o hne _
          | none => rfl
      | jint n => rfl
      | jfloat q => rfl
      | jbool b => rfl
      | jnull => rfl
      | jarr xs => rfl
      | jobj fs => rfl

theorem coerceRiskIn_frame (o : Obj) {k : Str} (hne : k ≠ kReputation) :
    getO (coerceRiskIn o) k = getO o k := by
  unfold coerceRiskIn
  cases hg : getO o kReputation with
  | none => rfl
  | some v =>
      cases v with
      | jobj fs => exact getO_setO_ne o hne _
      | jstr s => rfl
      | jint n => rfl
      | jfloat q => rfl
      | jbool b => rfl
      | jnull => rfl
      | jarr xs => rfl

theorem riskRemapB_frame (o : Obj) {k : Str} (hne : k ≠ kReputation) :
    getO (riskRemapB o) k = getO o k := by
  unfold riskRemapB
  cases hg : getO o kReputation with
  | none => rfl
  | some v =>
      cases v with
      | jobj fs =>
          show getO (match getO fs kRisk with
                     | some (.jstr s) =>
                         match riskMap (lowerS (pyStrip s)) with
                         | some c => setO o kReputation (.jobj (setO fs kRisk (.jstr c)))
                         | none => o
                     | _ => o) k = getO o k
          cases getO fs kRisk with
          | none => rfl
          | some w =>
              cases w with
              | jstr s =>
                  show getO (match riskMap (lowerS (pyStrip s)) with
                             | some c => setO o kReputation (.jobj (setO fs kRisk (.jstr c)))
                             | none => o) k = getO o k
                  cases riskMap (lowerS (pyStrip s)) with
                  | some c => exact getO_setO_ne o hne _
                  | none => rfl
              | jint n => rfl
              | jfloat q => rfl
              | jbool b => rfl
              | jnull => rfl
              | jarr xs => rfl
              | jobj gs => rfl
      | jstr s => rfl
      | jint n => rfl
      | jfloat q => rfl
      | jbool b => rfl
      | jnull => rfl
      | jarr xs => rfl

theorem coercePrio_frame (o : Obj) {k : Str} (hne : k ≠ kPriority) :
    getO (coercePrio o) k = getO o k := by
  unfold coercePrio
  cases hg : getO o kPriority with
  | none => rfl
  | some v =>
      cases v with
      | jstr s =>
          by_cases hd : pyIsDigits (pyStrip s) = true
          · simp only []
            rw [if_pos hd]
            exact getO_setO_ne o hne _
          · simp only []
            rw [if_neg hd]
      | jfloat q => exact getO_setO_ne o hne _
      | jint n => rfl
      | jbool b => rfl
      | jnull => rfl
      | jarr xs => rfl
      | jobj fs => rfl

theorem coerceConf_frame (o : Obj) {k : Str} (hne : k ≠ kConfidence) :
    getO (coerceConf o) k = getO o k := by
  unfold coerceConf
  cases hg : getO o kConfidence with
  | none => rfl
  | some v =>
      cases v with
      | jstr s =>
          show getO (match parseFloat (pyStrip s) with
                     | some q => setO o kConfidence (.jfloat q)
                     | none => o) k = getO o k
          cases parseFloat (pyStrip s) with
          | some q => exact getO_setO_ne o hne _
          | none => rfl
      | jfloat q => rfl
      | jint n => rfl
      | jbool b => rfl
      | jnull => rfl
      | jarr xs => rfl
      | jobj fs => rfl

theorem listifyIn_frame (o : Obj) {k k' : Str} (hne : k' ≠ k) :
    getO (listifyIn o k) k' = getO o k' := by
  unfold listifyIn
  cases hg : (getO o k).getD (.jarr []) with
  | jstr s =>
      by_cases hb : pyStrip s = []
      · simp only []
        rw [if_pos hb]
        exact getO_setO_ne o hne _
      · simp only []
        rw [if_neg hb]
        exact getO_setO_ne o hne _
  | jarr xs => rfl
  | jint n => exact getO_setO_ne o hne _
  | jfloat q => exact getO_setO_ne o hne _
  | jbool b => exact getO_setO_ne o hne _
  | jnull => exact getO_setO_ne o hne _
  | jobj fs => exact getO_setO_ne o hne _

/-- Second risk remap is the identity once `risk_level` already holds an
allowed enum string. -/
theorem riskRemapB_of_enum {o : Obj} {fs : Obj} {s : Str}
    (hrep : getO o kReputation = some (.jobj fs))
    (hrisk : getO fs kRisk = some (.jstr s))
    (henum : riskEnum (.jstr s)) : riskRemapB o = o := by
  unfold riskRemapB
  rw [hrep]
  show (match getO fs kRisk with
        | some (.jstr s) =>
            match riskMap (lowerS (pyStrip s)) with
            | some c => setO o kReputation (.jobj (setO fs kRisk (.jstr c)))
            | none => o
        | _ => o) = o
  rw [hrisk]
  have hcanon : riskMap (lowerS (pyStrip s)) = some s := by
    rcases henum with h | h | h <;> · simp only [JVal.jstr.injEq] at h; subst h; decide
  show (match riskMap (lowerS (pyStrip s)) with
        | some c => setO o kReputation (.jobj (setO fs kRisk (.jstr c)))
        | none => o) = o
  rw [hcanon]
  show setO o kReputation (.jobj (setO fs kRisk (.jstr s))) = o
  rw [setO_same hrisk, setO_same hrep]

/-- What the full normalization guarantees for every input object: the four
nested dicts exist with all their required keys present, `risk_level` holds
an allowed enum string, and `notes` is present. -/
theorem normalizeTriage_facts (d0 : Obj) :
    (∃ lo, getO (normalizeTriage d0) kLead = some (.jobj lo) ∧
      (getO lo kTitle).isSome ∧ (getO lo kDraft).isSome) ∧
      (∃ ro, getO (normalizeTriage d0) kReputation = some (.jobj ro) ∧
        (getO ro kTitle).isSome ∧ (getO ro kDraft).isSome ∧
        ∃ rv, getO ro kRisk = some rv ∧ riskEnum rv) ∧
      (∃ co, getO (normalizeTriage d0) kContent = some (.jobj co) ∧
        (getO co kTitle).isSome ∧ (getO co kAngle).isSome ∧
        (getO co kOutline).isSome ∧ (getO co kCanva).isSome) ∧
      (∃ ru, getO (normalizeTriage d0) kRoutes = some (.jobj ru) ∧
        (getO ru kLead).isSome ∧ (getO ru kReputation).isSome ∧
        (getO ru kContent).isSome) ∧
      (getO (normalizeTriage d0) kNotes).isSome := by
  obtain ⟨hL, hR, hC, hRt⟩ := ensureDefaults_facts (remapSentA d0)
  set E := ensureDefaults (remapSentA d0) with hE
  have hD : normalizeTriage d0
      = riskRemapB (remapSentB (setdefO (listifyIn (listifyIn (coerceConf (coercePrio
          (coerceRiskIn E))) kEntities) kMetros) kNotes (.jstr []))) := rfl
  have frame7 : ∀ k : Str, k ≠ kSentiment → k ≠ kNotes → k ≠ kEntities → k ≠ kMetros →
      k ≠ kConfidence → k ≠ kPriority →
      getO (remapSentB (setdefO (listifyIn (listifyIn (coerceConf (coercePrio
        (coerceRiskIn E))) kEntities) kMetros) kNotes (.jstr []))) k
        = getO (coerceRiskIn E) k := by
    intro k h1 h2 h3 h4 h5 h6
    rw [remapSentB_frame _ h1, getO_setdefO_ne _ h2, listifyIn_frame _ h4,
      listifyIn_frame _ h3, coerceConf_frame _ h5, coercePrio_frame _ h6]
  obtain ⟨fsR, hRg, hRi⟩ := hR
  have hcrisk := coerceRiskIn_of_obj hRg
  set cv := coerceRisk ((getO fsR kRisk).getD (.jstr (chars "Low"))) with hcv
  have henum : riskEnum cv := coerceRisk_mem _
  obtain ⟨s, hs⟩ : ∃ s, cv = .jstr s := by
    rcases henum with h | h | h <;> exact ⟨_, h⟩
  have hrep1 : getO (coerceRiskIn E) kReputation = some (.jobj (setO fsR kRisk cv)) := by
    rw [hcrisk]; exact getO_setO_self E kReputation _
  have hrep7 : getO (remapSentB (setdefO (listifyIn (listifyIn (coerceConf (coercePrio
      (coerceRiskIn E))) kEntities) kMetros) kNotes (.jstr []))) kReputation
      = some (.jobj (setO fsR kRisk cv)) := by
    rw [frame7 kReputation (by decide) (by decide) (by decide) (by decide) (by decide)
      (by decide)]
    exact hrep1
  have hriskIn : getO (setO fsR kRisk cv) kRisk = some cv := getO_setO_self fsR kRisk cv
  have hB : riskRemapB (remapSentB (setdefO (listifyIn (listifyIn (coerceConf (coercePrio
      (coerceRiskIn E))) kEntities) kMetros) kNotes (.jstr [])))
      = remapSentB (setdefO (listifyIn (listifyIn (coerceConf (coercePrio
        (coerceRiskIn E))) kEntities) kMetros) kNotes (.jstr [])) :=
    riskRemapB_of_enum hrep7 (hs ▸ hriskIn) (hs ▸ henum)
  refine ⟨?_, ?_, ?_, ?_, ?_⟩
  · obtain ⟨lo, hg, hin⟩ := hL
    refine ⟨lo, ?_, hin kTitle (by simp), hin kDraft (by simp)⟩
    rw [hD, hB, frame7 kLead (by decide) (by decide) (by decide) (by decide) (by decide)
      (by decide), coerceRiskIn_frame _ (by decide)]
    exact hg
  · refine ⟨setO fsR kRisk cv, ?_, ?_, ?_, cv, hriskIn, henum⟩
    · rw [hD, hB]; exact hrep7
    · rw [getO_setO_ne fsR (by decide) cv]; exact hRi kTitle (by simp)
    · rw [getO_setO_ne fsR (by decide) cv]; exact hRi kDraft (by simp)
  · obtain ⟨co, hg, hin⟩ := hC
    refine ⟨co, ?_, hin kTitle (by simp), hin kAngle (by simp), hin kOutline (by simp),
      hin kCanva (by simp)⟩
    rw [hD, hB, frame7 kContent (by decide) (by decide) (by decide) (by decide) (by decide)
      (by decide), coerceRiskIn_frame _ (by decide)]
    exact hg
  · obtain ⟨ru, hg, hin⟩ := hRt
    refine ⟨ru, ?_, hin kLead (by simp), hin kReputation (by simp), hin kContent (by simp)⟩
    rw [hD, hB, frame7 kRoutes (by decide) (by decide) (by decide) (by decide) (by decide)
      (by decide), coerceRiskIn_frame _ (by decide)]
    exact hg
  · rw [hD, hB, remapSentB_frame _ (by decide)]
    exact getO_setdefO_isSome _ kNotes _

/-! ### Shape lemmas for validated objects -/

theorem boolAt_shape {fs : Obj} {k : Str} (h : boolAt fs k = true) :
    ∃ b, getO fs k = some (.jbool b) := by
  unfold boolAt at h
  split at h
  · next b heq => exact ⟨b, heq⟩
  · exact absurd h (by simp)

theorem intBetween_shape {v : JVal} {lo hi : ℚ} (h : isIntBetween v lo hi = true) :
    ∃ q, asNum v = some q ∧ lo ≤ q ∧ q ≤ hi := by
  unfold isIntBetween at h
  match v with
  | .jint n =>
      simp only [decide_eq_true_eq] at h
      exact ⟨(n : ℚ), rfl, h⟩
  | .jfloat q =>
      simp only [Bool.and_eq_true, decide_eq_true_eq] at h
      exact ⟨q, rfl, h.2⟩
  | .jstr s => exact absurd h (by simp)
  | .jbool b => exact absurd h (by simp)
  | .jnull => exact absurd h (by simp)
  | .jarr xs => exact absurd h (by simp)
  | .jobj fs => exact absurd h (by simp)

theorem numBetween_shape {v : JVal} {lo hi : ℚ} (h : isNumBetween v lo hi = true) :
    ∃ q, asNum v = some q ∧ lo ≤ q ∧ q ≤ hi := by
  unfold isNumBetween at h
  match v with
  | .jint n =>
      simp only [decide_eq_true_eq] at h
      exact ⟨(n : ℚ), rfl, h⟩
  | .jfloat q =>
      simp only [decide_eq_true_eq] at h
      exact ⟨q, rfl, h⟩
  | .jstr s => exact absurd h (by simp)
  | .jbool b => exact absurd h (by simp)
  | .jnull => exact absurd h (by simp)
  | .jarr xs => exact absurd h (by simp)
  | .jobj fs => exact absurd h (by simp)

theorem validRoutes_shape {v : JVal} (h : validRoutes v = true) :
    ∃ rfs, v = .jobj rfs ∧ ∃ bl br bc,
      getO rfs kLead = some (.jbool bl) ∧ getO rfs kReputation = some (.jbool br) ∧
      getO rfs kContent = some (.jbool bc) := by
  unfold validRoutes at h
  match v with
  | .jobj rfs =>
      simp only [Bool.and_eq_true] at h
      obtain ⟨⟨⟨_, hl⟩, hr⟩, hc⟩ := h
      obtain ⟨bl, hbl⟩ := boolAt_shape hl
      obtain ⟨br, hbr⟩ := boolAt_shape hr
      obtain ⟨bc, hbc⟩ := boolAt_shape hc
      exact ⟨rfs, rfl, bl, br, bc, hbl, hbr, hbc⟩
  | .jstr s => exact absurd h (by simp)
  | .jint n => exact absurd h (by simp)
  | .jfloat q => exact absurd h (by simp)
  | .jbool b => exact absurd h (by simp)
  | .jnull => exact absurd h (by simp)
  | .jarr xs => exact absurd h (by simp)

theorem pyLE_asNum {v : JVal} {q x : ℚ} (h : asNum v = some q) :
    pyLE v x = some (decide (q ≤ x)) := by
  unfold asNum at h
  match v with
  | .jint n =>
      simp only [Option.some.injEq] at h
      subst h; rfl
  | .jfloat y =>
      simp only [Option.some.injEq] at h
      subst h; rfl
  | .jstr s => simp at h
  | .jbool b => simp at h
  | .jnull => simp at h
  | .jarr xs => simp at h
  | .jobj fs => simp at h

theorem pyLT_asNum {v : JVal} {q x : ℚ} (h : asNum v = some q) :
    pyLT v x = some (decide (q < x)) := by
  unfold asNum at h
  match v with
  | .jint n =>
      simp only [Option.some.injEq] at h
      subst h; rfl
  | .jfloat y =>
      simp only [Option.some.injEq] at h
      subst h; rfl
  | .jstr s => simp at h
  | .jbool b => simp at h
  | .jnull => simp at h
  | .jarr xs => simp at h
  | .jobj fs => simp at h

/-- Evaluation of `should_escalate` once the four fields have known shapes. -/
theorem shouldEscalateO_eval {o : Obj} {b rb : Bool} {pv cv : JVal} {pq cq : ℚ} {rfs : Obj}
    (hc : getO o kCompliance = some (.jbool b))
    (hr : getO o kRoutes = some (.jobj rfs))
    (hrb : getO rfs kReputation = some (.jbool rb))
    (hp : getO o kPriority = some pv) (hpn : asNum pv = some pq)
    (hcf : getO o kConfidence = some cv) (hcn : asNum cv = some cq) :
    shouldEscalateO o = some (b || rb || decide (pq ≤ 2) || decide (cq < mkRat 7 10)) := by
  unfold shouldEscalateO
  rw [hc]
  cases b with
  | true => rfl
  | false =>
      show (match getO o kRoutes with
            | none => none
            | some r =>
                match jGet r kReputation with
                | none => none
                | some rr =>
                    if pyIsTrue rr then some true
                    else
                      match getO o kPriority with
                      | none => none
                      | some p =>
                          match pyLE p 2 with
                          | none => none
                          | some pb =>
                              if pb then some true
                              else
                                match getO o kConfidence with
                                | none => none
                                | some cf => pyLT cf (mkRat 7 10)) = _
      rw [hr]
      show (match jGet (.jobj rfs) kReputation with
            | none => none
            | some rr =>
                if pyIsTrue rr then some true
                else
                  match getO o kPriority with
                  | none => none
                  | some p =>
                      match pyLE p 2 with
                      | none => none
                      | some pb =>
                          if pb then some true
                          else
                            match getO o kConfidence with
                            | none => none
                            | some cf => pyLT cf (mkRat 7 10)) = _
      show (match getO rfs kReputation with
            | none => none
            | some rr =>
                if pyIsTrue rr then some true
                else
                  match getO o kPriority with
                  | none => none
                  | some p =>
                      match pyLE p 2 with
                      | none => none
                      | some pb =>
                          if pb then some true
                          else
                            match getO o kConfidence with
                            | none => none
                            | some cf => pyLT cf (mkRat 7 10)) = _
      rw [hrb]
      cases rb with
      | true => rfl
      | false =>
          show (match getO o kPriority with
                | none => none
                | some p =>
                    match pyLE p 2 with
                    | none => none
                    | some pb =>
                        if pb then some true
                        else
                          match getO o kConfidence with
                          | none => none
                          | some cf => pyLT cf (mkRat 7 10)) = _
          rw [hp]
          show (match pyLE pv 2 with
                | none => none
                | some pb =>
                    if pb then some true
                    else
                      match getO o kConfidence with
                      | none => none
                      | some cf => pyLT cf (mkRat 7 10)) = _
          rw [pyLE_asNum hpn]
          show (if decide (pq ≤ 2) then some true
                else
                  match getO o kConfidence with
                  | none => none
                  | some cf => pyLT cf (mkRat 7 10)) = _
          have hconf : (match getO o kConfidence with
                        | none => none
                        | some cf => pyLT cf (mkRat 7 10)) = some (decide (cq < mkRat 7 10)) := by
            rw [hcf]
            show pyLT cv (mkRat 7 10) = _
            rw [pyLT_asNum hcn]
          by_cases hple : pq ≤ 2
          · simp [hple]
          · simp [hple, hconf]

/-- A raised exception in `processOne` leaves the databases and the Mention
exactly as they were: every classification failure happens before the first
write. -/
theorem processOne_fail_frame {st st' : DbSt} {m m' : MRec} {r1 r2 : Except CErr JVal}
    {e : CErr} (h : processOne st m r1 r2 = (st', m', some e)) : st' = st ∧ m' = m := by
  unfold processOne at h
  by_cases hskip : m.url = [] ∨ m.text = []
  · rw [if_pos hskip] at h
    simp at h
  · rw [if_neg hskip] at h
    cases h1 : classifyOutcome r1 with
    | error e1 =>
        rw [h1] at h
        simp only [Prod.mk.injEq] at h
        exact ⟨h.1.symm, h.2.1.symm⟩
    | ok t1 =>
        rw [h1] at h
        simp only [] at h
        cases h2 : (if escalateT t1 then classifyOutcome r2 else .ok t1) with
        | error e2 =>
            rw [h2] at h
            simp only [Prod.mk.injEq] at h
            exact ⟨h.1.symm, h.2.1.symm⟩
        | ok fin =>
            rw [h2] at h
            simp only [Prod.mk.injEq] at h
            exact absurd h.2.2 (by simp)

/-! ### Concrete sample records used by the counterexamples and witnesses -/

/-- A fully populated, schema-valid triage object
(compliance false, no routes, priority 3, confidence 0.9). -/
def exTriageObj : Obj :=
  [(kSentiment, .jstr (chars "Neutral")),
   (kPriority, .jint 3),
   (kCompliance, .jbool false),
   (kRoutes, .jobj [(kLead, .jbool false), (kReputation, .jbool false),
     (kContent, .jbool false)]),
   (kEntities, .jarr []),
   (kMetros, .jarr []),
   (kConfidence, .jfloat (mkRat 9 10)),
   (kLead, .jobj [(kTitle, .jstr []), (kDraft, .jstr [])]),
   (kReputation, .jobj [(kTitle, .jstr []), (kDraft, .jstr []),
     (kRisk, .jstr (chars "Low"))]),
   (kContent, .jobj [(kTitle, .jstr []), (kAngle, .jstr []), (kOutline, .jarr []),
     (kCanva, .jarr [])]),
   (kNotes, .jstr [])]

/-- A Mention with url and text present. -/
def exMention : MRec :=
  { platform := chars "Reddit", url := chars "http://x", text := chars "hi",
    author := chars "alice", sentiment := none, priority := none, compliance := none,
    entities := [], metros := [], leadsQ := [], repQ := [], contQ := [] }

/-- A second Mention with url and text present. -/
def exMention2 : MRec :=
  { platform := chars "X", url := chars "http://y", text := chars "yo",
    author := chars "bob", sentiment := none, priority := none, compliance := none,
    entities := [], metros := [], leadsQ := [], repQ := [], contQ := [] }

/-- A validated triage result routing to the lead queue whose model title is
a single space (non-empty but blank after trimming). -/
def exTriageBlankTitle : TriageR :=
  { sentiment := chars "Neutral", priority := 3, compliance := false,
    rLead := true, rRep := false, rCont := false, entities := [], metros := [],
    confidence := mkRat 9 10, leadTitle := chars " ", leadDraft := [], repTitle := [],
    repDraft := [], riskLevel := chars "Low", contTitle := [], contAngle := [],
    contBullets := [], contPrompts := [], notes := [] }

/-- The empty database state. -/
def exDb : DbSt := { leads := [], reps := [], conts := [], nextId := 0 }

/-- A schema-valid synthesis topic whose two mention ids resolve to nothing. -/
def exTopic : TopicR :=
  { topic := chars "Great topic here", audience := chars "Operator",
    platformT := chars "X", priority := 2, hook := chars "h",
    keyPoints := [chars "A point", chars "B point", chars "C point"],
    proofPoints := [], mentionIds := [chars "x", chars "y"] }

theorem remapSentB_of_notstr {o : Obj} (hg : asStr (getO o kSentiment) = none) :
    remapSentB o = o := by
  unfold remapSentB
  cases h : getO o kSentiment with
  | none => rfl
  | some v =>
      cases v with
      | jstr s => rw [h] at hg; simp [asStr] at hg
      | jint n => rfl
      | jfloat q => rfl
      | jbool b => rfl
      | jnull => rfl
      | jarr xs => rfl
      | jobj fs => rfl

theorem coercePrio_of_none {o : Obj} (hg : getO o kPriority = none) : coercePrio o = o := by
  unfold coercePrio
  rw [hg]

theorem coerceConf_of_none {o : Obj} (hg : getO o kConfidence = none) : coerceConf o = o := by
  unfold coerceConf
  rw [hg]

theorem listifyIn_of_absent {o : Obj} {k : Str} (hg : getO o k = none) :
    listifyIn o k = o := by
  unfold listifyIn
  rw [hg]
  rfl

theorem ensureDefaults_frame (o : Obj) {k : Str} (h1 : k ≠ kLead) (h2 : k ≠ kReputation)
    (h3 : k ≠ kContent) (h4 : k ≠ kRoutes) :
    getO (ensureDefaults o) k = getO o k := by
  unfold ensureDefaults
  rw [fillRoutes_frame _ h4, fillContent_frame _ h3, fillRep_frame _ h2, fillLead_frame _ h1,
    getO_ensureObj_ne _ h4, getO_ensureObj_ne _ h3, getO_ensureObj_ne _ h2,
    getO_ensureObj_ne _ h1]

/-! ## Claim theorems -/

/-- C1, counterexample: normalizing the empty JSON object (syntactically
valid, all required keys absent) yields an object that still lacks the
required top-level keys `sentiment`, `priority`, `compliance_mode`,
`confidence`, `entities` and `metros`; and on an object supplying
wrong-typed inner values (an integer `lead.title`, a string `routes.lead`)
those values survive normalization unchanged, since `setdefault` fills only
absent keys.  Both refute the claim that every required key is present with
a type-correct value after normalization. -/
theorem C1_counterexample :
    getO (normalizeTriage []) kSentiment = none ∧
      getO (normalizeTriage []) kPriority = none ∧
      getO (normalizeTriage []) kCompliance = none ∧
      getO (normalizeTriage []) kConfidence = none ∧
      getO (normalizeTriage []) kEntities = none ∧
      getO (normalizeTriage []) kMetros = none ∧
      (getO (normalizeTriage [(kLead, .jobj [(kTitle, .jint 5)]),
          (kRoutes, .jobj [(kLead, .jstr (chars "yes"))])]) kLead).bind
        (fun w => jGet w kTitle) = some (.jint 5) ∧
      (getO (normalizeTriage [(kLead, .jobj [(kTitle, .jint 5)]),
          (kRoutes, .jobj [(kLead, .jstr (chars "yes"))])]) kRoutes).bind
        (fun w => jGet w kLead) = some (.jstr (chars "yes")) :=
  ⟨rfl, rfl, rfl, rfl, rfl, rfl, rfl, rfl⟩

/-- C1, amended: for every JSON object the normalization guarantees presence,
not type-correctness: the four nested dicts exist with all their required
inner keys present, `risk_level` is in the allowed enum, and `notes` is
present; a supplied `lead.title` value of any type is preserved unchanged
(`setdefault` fills only absent keys, so ill-typed supplied inner values
survive); and the top-level keys `sentiment`, `priority`, `compliance_mode`,
`confidence`, `entities` and `metros` are NOT added when absent (all of this
is caught only by the subsequent schema validation). -/
theorem C1_normalization_guarantees (d0 : Obj) :
    ((∃ lo, getO (normalizeTriage d0) kLead = some (.jobj lo) ∧
        (getO lo kTitle).isSome ∧ (getO lo kDraft).isSome) ∧
      (∃ ro, getO (normalizeTriage d0) kReputation = some (.jobj ro) ∧
        (getO ro kTitle).isSome ∧ (getO ro kDraft).isSome ∧
        ∃ rv, getO ro kRisk = some rv ∧ riskEnum rv) ∧
      (∃ co, getO (normalizeTriage d0) kContent = some (.jobj co) ∧
        (getO co kTitle).isSome ∧ (getO co kAngle).isSome ∧
        (getO co kOutline).isSome ∧ (getO co kCanva).isSome) ∧
      (∃ ru, getO (normalizeTriage d0) kRoutes = some (.jobj ru) ∧
        (getO ru kLead).isSome ∧ (getO ru kReputation).isSome ∧
        (getO ru kContent).isSome) ∧
      (getO (normalizeTriage d0) kNotes).isSome) ∧
      ((getO d0 kSentiment = none → getO (normalizeTriage d0) kSentiment = none) ∧
        (getO d0 kPriority = none → getO (normalizeTriage d0) kPriority = none) ∧
        (getO d0 kCompliance = none → getO (normalizeTriage d0) kCompliance = none) ∧
        (getO d0 kConfidence = none → getO (normalizeTriage d0) kConfidence = none) ∧
        (getO d0 kEntities = none → getO (normalizeTriage d0) kEntities = none) ∧
        (getO d0 kMetros = none → getO (normalizeTriage d0) kMetros = none)) ∧
      (∀ lo v, getO d0 kLead = some (.jobj lo) → getO lo kTitle = some v →
        ∃ lo', getO (normalizeTriage d0) kLead = some (.jobj lo') ∧
          getO lo' kTitle = some v) := by
  refine ⟨normalizeTriage_facts d0, ⟨?_, ?_, ?_, ?_, ?_, ?_⟩, ?_⟩
  · intro hg
    have hA : remapSentA d0 = d0 := remapSentA_of_notstr (by rw [hg]; rfl)
    have hD : normalizeTriage d0
        = riskRemapB (remapSentB (setdefO (listifyIn (listifyIn (coerceConf (coercePrio
            (coerceRiskIn (ensureDefaults (remapSentA d0))))) kEntities) kMetros)
            kNotes (.jstr []))) := rfl
    have hmid : getO (setdefO (listifyIn (listifyIn (coerceConf (coercePrio
        (coerceRiskIn (ensureDefaults (remapSentA d0))))) kEntities) kMetros)
        kNotes (.jstr [])) kSentiment = none := by
      rw [getO_setdefO_ne _ (by decide), listifyIn_frame _ (by decide),
        listifyIn_frame _ (by decide), coerceConf_frame _ (by decide),
        coercePrio_frame _ (by decide), coerceRiskIn_frame _ (by decide),
        ensureDefaults_frame _ (by decide) (by decide) (by decide) (by decide), hA]
      exact hg
    rw [hD, riskRemapB_frame _ (by decide), remapSentB_of_notstr (by rw [hmid]; rfl)]
    exact hmid
  · intro hg
    have hD : normalizeTriage d0
        = riskRemapB (remapSentB (setdefO (listifyIn (listifyIn (coerceConf (coercePrio
            (coerceRiskIn (ensureDefaults (remapSentA d0))))) kEntities) kMetros)
            kNotes (.jstr []))) := rfl
    have hbase : getO (coerceRiskIn (ensureDefaults (remapSentA d0))) kPriority = none := by
      rw [coerceRiskIn_frame _ (by decide),
        ensureDefaults_frame _ (by decide) (by decide) (by decide) (by decide),
        remapSentA_frame _ (by decide)]
      exact hg
    rw [hD, riskRemapB_frame _ (by decide), remapSentB_frame _ (by decide),
      getO_setdefO_ne _ (by decide), listifyIn_frame _ (by decide),
      listifyIn_frame _ (by decide), coerceConf_frame _ (by decide),
      coercePrio_of_none hbase]
    exact hbase
  · intro hg
    have hD : normalizeTriage d0
        = riskRemapB (remapSentB (setdefO (listifyIn (listifyIn (coerceConf (coercePrio
            (coerceRiskIn (ensureDefaults (remapSentA d0))))) kEntities) kMetros)
            kNotes (.jstr []))) := rfl
    rw [hD, riskRemapB_frame _ (by decide), remapSentB_frame _ (by decide),
      getO_setdefO_ne _ (by decide), listifyIn_frame _ (by decide),
      listifyIn_frame _ (by decide), coerceConf_frame _ (by decide),
      coercePrio_frame _ (by decide), coerceRiskIn_frame _ (by decide),
      ensureDefaults_frame _ (by decide) (by decide) (by decide) (by decide),
      remapSentA_frame _ (by decide)]
    exact hg
  · intro hg
    have hD : normalizeTriage d0
        = riskRemapB (remapSentB (setdefO (listifyIn (listifyIn (coerceConf (coercePrio
            (coerceRiskIn (ensureDefaults (remapSentA d0))))) kEntities) kMetros)
            kNotes (.jstr []))) := rfl
    have hbase : getO (coercePrio (coerceRiskIn (ensureDefaults (remapSentA d0))))
        kConfidence = none := by
      rw [coercePrio_frame _ (by decide), coerceRiskIn_frame _ (by decide),
        ensureDefaults_frame _ (by decide) (by decide) (by decide) (by decide),
        remapSentA_frame _ (by decide)]
      exact hg
    rw [hD, riskRemapB_frame _ (by decide), remapSentB_frame _ (by decide),
      getO_setdefO_ne _ (by decide), listifyIn_frame _ (by decide),
      listifyIn_frame _ (by decide), coerceConf_of_none hbase]
    exact hbase
  · intro hg
    have hD : normalizeTriage d0
        = riskRemapB (remapSentB (setdefO (listifyIn (listifyIn (coerceConf (coercePrio
            (coerceRiskIn (ensureDefaults (remapSentA d0))))) kEntities) kMetros)
            kNotes (.jstr []))) := rfl
    have hbase : getO (coerceConf (coercePrio (coerceRiskIn (ensureDefaults
        (remapSentA d0))))) kEntities = none := by
      rw [coerceConf_frame _ (by decide), coercePrio_frame _ (by decide),
        coerceRiskIn_frame _ (by decide),
        ensureDefaults_frame _ (by decide) (by decide) (by decide) (by decide),
        remapSentA_frame _ (by decide)]
      exact hg
    rw [hD, riskRemapB_frame _ (by decide), remapSentB_frame _ (by decide),
      getO_setdefO_ne _ (by decide), listifyIn_frame _ (by decide),
      listifyIn_of_absent hbase]
    exact hbase
  · intro hg
    have hD : normalizeTriage d0
        = riskRemapB (remapSentB (setdefO (listifyIn (listifyIn (coerceConf (coercePrio
            (coerceRiskIn (ensureDefaults (remapSentA d0))))) kEntities) kMetros)
            kNotes (.jstr []))) := rfl
    have hbase : getO (listifyIn (coerceConf (coercePrio (coerceRiskIn (ensureDefaults
        (remapSentA d0))))) kEntities) kMetros = none := by
      rw [listifyIn_frame _ (by decide), coerceConf_frame _ (by decide),
        coercePrio_frame _ (by decide), coerceRiskIn_frame _ (by decide),
        ensureDefaults_frame _ (by decide) (by decide) (by decide) (by decide),
        remapSentA_frame _ (by decide)]
      exact hg
    rw [hD, riskRemapB_frame _ (by decide), remapSentB_frame _ (by decide),
      getO_setdefO_ne _ (by decide), listifyIn_of_absent hbase]
    exact hbase
  · intro lo v hlo hv
    have hA : getO (remapSentA d0) kLead = some (.jobj lo) := by
      rw [remapSentA_frame _ (by decide)]
      exact hlo
    have hE : getO (ensureObj (ensureObj (ensureObj (ensureObj (remapSentA d0) kLead)
        kReputation) kContent) kRoutes) kLead = some (.jobj lo) := by
      rw [getO_ensureObj_ne _ (by decide), getO_ensureObj_ne _ (by decide),
        getO_ensureObj_ne _ (by decide), ensureObj_of_obj hA]
      exact hA
    have h1 := setDefIn_of_obj kTitle (.jstr []) hE
    rw [setdefO_of_present _ (by rw [hv]; rfl)] at h1
    have h2 := setDefIn_of_obj kDraft (.jstr []) h1
    refine ⟨setdefO lo kDraft (.jstr []), ?_, ?_⟩
    · have hD : normalizeTriage d0
          = riskRemapB (remapSentB (setdefO (listifyIn (listifyIn (coerceConf (coercePrio
              (coerceRiskIn (ensureDefaults (remapSentA d0))))) kEntities) kMetros)
              kNotes (.jstr []))) := rfl
      rw [hD, riskRemapB_frame _ (by decide), remapSentB_frame _ (by decide),
        getO_setdefO_ne _ (by decide), listifyIn_frame _ (by decide),
        listifyIn_frame _ (by decide), coerceConf_frame _ (by decide),
        coercePrio_frame _ (by decide), coerceRiskIn_frame _ (by decide)]
      unfold ensureDefaults
      rw [fillRoutes_frame _ (by decide), fillContent_frame _ (by decide),
        fillRep_frame _ (by decide)]
      exact h2
    · rw [getO_setdefO_ne _ (by decide)]
      exact hv

/-- C9: each normalization rule is idempotent: applying the sentiment case
remap, the nested-object defaulting, the risk/priority/confidence coercions,
the entities/metros listification, the bullet cleaning or the mention-id
cleaning twice yields the same result as applying it once. -/
theorem C9_normalization_rules_idempotent :
    (∀ o : Obj, remapSentA (remapSentA o) = remapSentA o) ∧
      (∀ o : Obj, ensureDefaults (ensureDefaults o) = ensureDefaults o) ∧
      (∀ o : Obj, coerceRiskIn (coerceRiskIn o) = coerceRiskIn o) ∧
      (∀ o : Obj, coercePrio (coercePrio o) = coercePrio o) ∧
      (∀ o : Obj, coerceConf (coerceConf o) = coerceConf o) ∧
      (∀ (o : Obj) (k : Str), listifyIn (listifyIn o k) k = listifyIn o k) ∧
      (∀ (items : JVal) (maxN : Nat),
        cleanBullets (.jarr ((cleanBullets items maxN).map .jstr)) maxN
          = cleanBullets items maxN) ∧
      (∀ v : JVal, cleanMids (.jarr ((cleanMids v).map .jstr)) = cleanMids v) :=
  ⟨remapSentA_idem, ensureDefaults_idem, coerceRiskIn_idem, coercePrio_idem,
    coerceConf_idem, listifyIn_idem, cleanBullets_idem, cleanMids_idem⟩

/-- C8: the risk-level coercion maps numeric 0 to "Low", 1 to "Medium", every
numeric value at least 2 to "High" (and 1.7 also to "High"); strings are
case-folded through the lookup table ("LOW" to "Low"), and unrecognized
strings such as "unknown" default to "Low". -/
theorem C8_risk_level_coercion :
    coerceRisk (.jint 0) = .jstr (chars "Low") ∧
      coerceRisk (.jint 1) = .jstr (chars "Medium") ∧
      (∀ n : ℤ, 2 ≤ n → coerceRisk (.jint n) = .jstr (chars "High")) ∧
      (∀ q : ℚ, 2 ≤ q → coerceRisk (.jfloat q) = .jstr (chars "High")) ∧
      coerceRisk (.jfloat (17/10)) = .jstr (chars "High") ∧
      (∀ s c, riskMap (lowerS (pyStrip s)) = some c → coerceRisk (.jstr s) = .jstr c) ∧
      coerceRisk (.jstr (chars "LOW")) = .jstr (chars "Low") ∧
      (∀ s, riskMap (lowerS (pyStrip s)) = none →
        coerceRisk (.jstr s) = .jstr (chars "Low")) ∧
      coerceRisk (.jstr (chars "unknown")) = .jstr (chars "Low") := by
  refine ⟨rfl, rfl, ?_, ?_, ?_, ?_, rfl, ?_, rfl⟩
  · intro n hn
    simp only [coerceRisk]
    rw [if_neg (by omega), if_neg (by omega)]
  · intro q hq
    simp only [coerceRisk]
    rw [if_neg (by linarith), if_neg (by intro h; rw [h] at hq; norm_num at hq)]
  · simp only [coerceRisk]
    norm_num
  · intro s c hm
    simp only [coerceRisk]
    rw [hm]
  · intro s hm
    simp only [coerceRisk]
    rw [hm]

/-- Witness for C8 at concrete inputs. -/
theorem C8_risk_level_coercion_witness :
    coerceRisk (.jint 7) = .jstr (chars "High") ∧
      coerceRisk (.jfloat 3) = .jstr (chars "High") ∧
      coerceRisk (.jstr (chars " Medium ")) = .jstr (chars "Medium") ∧
      coerceRisk (.jstr (chars "bogus")) = .jstr (chars "Low") := by
  obtain ⟨-, -, hi, hf, -, hs, -, hd, -⟩ := C8_risk_level_coercion
  exact ⟨hi 7 (by norm_num), hf 3 (by norm_num), hs _ _ (by decide), hd _ (by decide)⟩

/-- C10, counterexample: " LinkedIn" matches no allowed value exactly and no
allowed value case-insensitively (as given, untrimmed), yet normalize_choice
returns "LinkedIn", not the claimed fixed default "BiggerPockets": matching
is performed on the whitespace-trimmed value. -/
theorem C10_counterexample :
    normalizeChoice (.jstr (chars " LinkedIn")) allowedPlatformTarget
        (chars "BiggerPockets") = chars "LinkedIn" ∧
      ¬ (chars " LinkedIn") ∈ allowedPlatformTarget ∧
      allowedPlatformTarget.all (fun a => !(lowerS a == lowerS (chars " LinkedIn")))
        = true := by
  exact ⟨by decide, by decide, by decide⟩

/-- C10, amended: matching is performed on the whitespace-trimmed value: a
trimmed exact match is returned as is, a trimmed case-insensitive match is
canonicalized to an allowed spelling, and any other value (including
non-strings) is silently replaced by the given default, never rejected. -/
theorem C10_choice_normalization (v : JVal) (allowed : List Str) (dflt : Str) :
    (normalizeChoice v allowed dflt ∈ allowed ∨ normalizeChoice v allowed dflt = dflt) ∧
      (∀ s, v = .jstr s → pyStrip s ∈ allowed →
        normalizeChoice v allowed dflt = pyStrip s) ∧
      (∀ s, v = .jstr s → (∃ a ∈ allowed, lowerS a = lowerS (pyStrip s)) →
        normalizeChoice v allowed dflt ∈ allowed ∧
          lowerS (normalizeChoice v allowed dflt) = lowerS (pyStrip s)) ∧
      (∀ s, v = .jstr s → pyStrip s ∉ allowed →
        (∀ a ∈ allowed, lowerS a ≠ lowerS (pyStrip s)) →
        normalizeChoice v allowed dflt = dflt) ∧
      (asStr (some v) = none → normalizeChoice v allowed dflt = dflt) := by
  refine ⟨?_, ?_, ?_, ?_, ?_⟩
  · match v with
    | .jstr s =>
        unfold normalizeChoice
        by_cases hm : pyStrip s ∈ allowed
        · simp only [if_pos hm]
          exact Or.inl hm
        · simp only [if_neg hm]
          cases hf : allowed.find? (fun a => lowerS a = lowerS (pyStrip s)) with
          | some a => exact Or.inl (List.mem_of_find?_eq_some hf)
          | none => exact Or.inr rfl
    | .jint n => exact Or.inr rfl
    | .jfloat q => exact Or.inr rfl
    | .jbool b => exact Or.inr rfl
    | .jnull => exact Or.inr rfl
    | .jarr xs => exact Or.inr rfl
    | .jobj fs => exact Or.inr rfl
  · rintro s rfl hm
    unfold normalizeChoice
    simp only [if_pos hm]
  · rintro s rfl ⟨a, ha, hkey⟩
    unfold normalizeChoice
    by_cases hm : pyStrip s ∈ allowed
    · simp only [if_pos hm]
      exact ⟨hm, trivial⟩
    · simp only [if_neg hm]
      cases hf : allowed.find? (fun x => lowerS x = lowerS (pyStrip s)) with
      | some b =>
          refine ⟨List.mem_of_find?_eq_some hf, ?_⟩
          have := List.find?_some hf
          simpa using this
      | none =>
          rw [List.find?_eq_none] at hf
          exact absurd (by simpa using hkey) (by simpa using hf a ha)
  · rintro s rfl hm hnone
    unfold normalizeChoice
    simp only [if_neg hm]
    cases hf : allowed.find? (fun x => lowerS x = lowerS (pyStrip s)) with
    | some b =>
        have hb := List.find?_some hf
        have hbmem := List.mem_of_find?_eq_some hf
        exact absurd (by simpa using hb) (hnone b hbmem)
    | none => rfl
  · intro hs
    match v with
    | .jstr s => simp [asStr] at hs
    | .jint n => rfl
    | .jfloat q => rfl
    | .jbool b => rfl
    | .jnull => rfl
    | .jarr xs => rfl
    | .jobj fs => rfl

/-- Witness for C10 at concrete inputs: a trimmed case-insensitive audience
match, a trimmed exact platform match, and a non-string falling back to the
audience default used by the synthesis loop. -/
theorem C10_choice_normalization_witness :
    normalizeChoice (.jstr (chars " operator ")) allowedAudience (chars "Operator")
        ∈ allowedAudience ∧
      normalizeChoice (.jstr (chars "Substack")) allowedPlatformTarget
        (chars "BiggerPockets") = chars "Substack" ∧
      normalizeChoice (.jint 3) allowedAudience (chars "Operator") = chars "Operator" := by
  refine ⟨?_, ?_, ?_⟩
  · exact ((C10_choice_normalization (.jstr (chars " operator ")) allowedAudience
      (chars "Operator")).2.2.1 _ rfl ⟨chars "Operator", by decide, by decide⟩).1
  · exact ((C10_choice_normalization (.jstr (chars "Substack")) allowedPlatformTarget
      (chars "BiggerPockets")).2.1 _ rfl (by decide)).trans (by decide)
  · exact (C10_choice_normalization (.jint 3) allowedAudience
      (chars "Operator")).2.2.2.2 rfl

/-- Witness for C1 at the empty object and at an object supplying an integer
`lead.title`, which survives normalization unchanged. -/
theorem C1_normalization_guarantees_witness :
    (getO (normalizeTriage []) kNotes).isSome ∧
      getO (normalizeTriage []) kSentiment = none ∧
      ∃ lo', getO (normalizeTriage [(kLead, .jobj [(kTitle, .jint 5)])]) kLead
          = some (.jobj lo') ∧ getO lo' kTitle = some (.jint 5) := by
  obtain ⟨⟨-, -, -, -, hnotes⟩, ⟨hsent, -⟩, -⟩ := C1_normalization_guarantees []
  obtain ⟨-, -, hpres⟩ := C1_normalization_guarantees [(kLead, .jobj [(kTitle, .jint 5)])]
  exact ⟨hnotes, hsent rfl, hpres _ _ rfl rfl⟩

/-- C2: on every schema-valid triage object, `should_escalate` evaluates
without raising and returns true exactly when `compliance_mode` is true, or
`routes.reputation` is true, or `priority <= 2`, or `confidence < 0.7`. -/
theorem C2_should_escalate_characterization (o : Obj) (hv : validTriage o = true) :
    ∃ (compliance rep : Bool) (pq cq : ℚ),
      getO o kCompliance = some (.jbool compliance) ∧
      (∃ rfs, getO o kRoutes = some (.jobj rfs) ∧
        getO rfs kReputation = some (.jbool rep)) ∧
      (∃ pv, getO o kPriority = some pv ∧ asNum pv = some pq) ∧
      (∃ cv, getO o kConfidence = some cv ∧ asNum cv = some cq) ∧
      shouldEscalateO o
        = some (compliance || rep || decide (pq ≤ 2) || decide (cq < mkRat 7 10)) := by
  unfold validTriage at hv
  simp only [Bool.and_eq_true] at hv
  obtain ⟨⟨⟨⟨⟨⟨⟨⟨⟨⟨⟨hkeys, hsent⟩, hprio⟩, hcomp⟩, hroutes⟩, hent⟩, hmet⟩, hconf⟩,
    hlead⟩, hrep⟩, hcont⟩, hnotes⟩ := hv
  obtain ⟨b, hb⟩ := boolAt_shape hcomp
  have hroutes' : ∃ rv, getO o kRoutes = some rv ∧ validRoutes rv = true := by
    revert hroutes
    cases hg : getO o kRoutes with
    | none => intro h; exact absurd h (by simp)
    | some rv => intro h; exact ⟨rv, rfl, h⟩
  obtain ⟨rv, hrv, hrvv⟩ := hroutes'
  obtain ⟨rfs, rfl, bl, br, bc, hbl, hbr, hbc⟩ := validRoutes_shape hrvv
  have hprio' : ∃ pv, getO o kPriority = some pv ∧ isIntBetween pv 1 5 = true := by
    revert hprio
    cases hg : getO o kPriority with
    | none => intro h; exact absurd h (by simp)
    | some pv => intro h; exact ⟨pv, rfl, h⟩
  obtain ⟨pv, hpv, hpvv⟩ := hprio'
  obtain ⟨pq, hpq, -, -⟩ := intBetween_shape hpvv
  have hconf' : ∃ cv, getO o kConfidence = some cv ∧ isNumBetween cv 0 1 = true := by
    revert hconf
    cases hg : getO o kConfidence with
    | none => intro h; exact absurd h (by simp)
    | some cv => intro h; exact ⟨cv, rfl, h⟩
  obtain ⟨cv, hcv, hcvv⟩ := hconf'
  obtain ⟨cq, hcq, -, -⟩ := numBetween_shape hcvv
  exact ⟨b, br, pq, cq, hb, ⟨rfs, hrv, hbr⟩, ⟨pv, hpv, hpq⟩, ⟨cv, hcv, hcq⟩,
    shouldEscalateO_eval hb hrv hbr hpv hpq hcv hcq⟩

/-- Witness for C2: the claim's own example (compliance false, reputation
route false, priority 3, confidence 0.9) does not escalate. -/
theorem C2_should_escalate_characterization_witness :
    shouldEscalateO exTriageObj = some false := by
  obtain ⟨c, r, pq, cq, hc, ⟨rfs, hrfs, hrb⟩, ⟨pv, hpv, hpq⟩, ⟨cv, hcv, hcq⟩, hres⟩ :=
    C2_should_escalate_characterization exTriageObj (by decide)
  have hceq : c = false := by
    have h2 : JVal.jbool false = JVal.jbool c := Option.some.inj hc
    simpa using h2.symm
  have hrfseq : JVal.jobj [(kLead, .jbool false), (kReputation, .jbool false),
      (kContent, .jbool false)] = JVal.jobj rfs := Option.some.inj hrfs
  have hrfseq' : rfs = [(kLead, .jbool false), (kReputation, .jbool false),
      (kContent, .jbool false)] := by
    have := hrfseq.symm
    simpa using this
  subst hrfseq'
  have hreq : r = false := by
    have h2 : JVal.jbool false = JVal.jbool r := Option.some.inj hrb
    simpa using h2.symm
  have hpveq : pv = .jint 3 := by
    have h2 : JVal.jint 3 = pv := Option.some.inj hpv
    exact h2.symm
  subst hpveq
  have hpqeq : pq = (3 : ℚ) := by
    have h2 : ((3 : ℤ) : ℚ) = pq := Option.some.inj hpq
    rw [← h2]; norm_num
  have hcveq : cv = .jfloat (mkRat 9 10) := by
    have h2 : JVal.jfloat (mkRat 9 10) = cv := Option.some.inj hcv
    exact h2.symm
  subst hcveq
  have hcqeq : cq = mkRat 9 10 := Option.some.inj hcq |>.symm
  rw [hres, hceq, hreq, hpqeq, hcqeq]
  norm_num

/-- C3: the Router creates a queue record for a destination iff the route
flag is true and the Mention's existing relation list for that destination
is empty; and a second run on the first run's output (the first run's
relation writes being visible) changes nothing, so at most one record per
destination is ever created. -/
theorem routeLead_fst_leads_if (st : DbSt) (m : MRec) (t : TriageR) :
    (routeLead st m t).1.leads
      = if t.rLead = true ∧ m.leadsQ = [] then
          st.leads ++ [⟨st.nextId, pyStrip (pyOrS t.leadTitle (fallbackTitle (chars "Lead") m))⟩]
        else st.leads := by
  unfold routeLead; split_ifs <;> rfl

theorem routeLead_fst_reps (st : DbSt) (m : MRec) (t : TriageR) :
    (routeLead st m t).1.reps = st.reps := by
  unfold routeLead; split_ifs <;> rfl

theorem routeLead_fst_conts (st : DbSt) (m : MRec) (t : TriageR) :
    (routeLead st m t).1.conts = st.conts := by
  unfold routeLead; split_ifs <;> rfl

theorem routeLead_snd_repQ (st : DbSt) (m : MRec) (t : TriageR) :
    (routeLead st m t).2.repQ = m.repQ := by
  unfold routeLead; split_ifs <;> rfl

theorem routeLead_snd_contQ (st : DbSt) (m : MRec) (t : TriageR) :
    (routeLead st m t).2.contQ = m.contQ := by
  unfold routeLead; split_ifs <;> rfl

theorem routeLead_snd_leadsQ_if (st : DbSt) (m : MRec) (t : TriageR) :
    (routeLead st m t).2.leadsQ
      = if t.rLead = true ∧ m.leadsQ = [] then [st.nextId] else m.leadsQ := by
  unfold routeLead; split_ifs <;> rfl

theorem routeLead_noop {st : DbSt} {m : MRec} {t : TriageR}
    (h : ¬(t.rLead = true ∧ m.leadsQ = [])) : routeLead st m t = (st, m) := by
  unfold routeLead; rw [if_neg h]

theorem routeRep_fst_reps_if (st : DbSt) (m : MRec) (t : TriageR) :
    (routeRep st m t).1.reps
      = if t.rRep = true ∧ m.repQ = [] then
          st.reps ++
            [⟨st.nextId, pyStrip (pyOrS t.repTitle (fallbackTitle (chars "Reputation") m))⟩]
        else st.reps := by
  unfold routeRep; split_ifs <;> rfl

theorem routeRep_fst_leads (st : DbSt) (m : MRec) (t : TriageR) :
    (routeRep st m t).1.leads = st.leads := by
  unfold routeRep; split_ifs <;> rfl

theorem routeRep_fst_conts (st : DbSt) (m : MRec) (t : TriageR) :
    (routeRep st m t).1.conts = st.conts := by
  unfold routeRep; split_ifs <;> rfl

theorem routeRep_snd_leadsQ (st : DbSt) (m : MRec) (t : TriageR) :
    (routeRep st m t).2.leadsQ = m.leadsQ := by
  unfold routeRep; split_ifs <;> rfl

theorem routeRep_snd_contQ (st : DbSt) (m : MRec) (t : TriageR) :
    (routeRep st m t).2.contQ = m.contQ := by
  unfold routeRep; split_ifs <;> rfl

theorem routeRep_snd_repQ_if (st : DbSt) (m : MRec) (t : TriageR) :
    (routeRep st m t).2.repQ
      = if t.rRep = true ∧ m.repQ = [] then [st.nextId] else m.repQ := by
  unfold routeRep; split_ifs <;> rfl

theorem routeRep_noop {st : DbSt} {m : MRec} {t : TriageR}
    (h : ¬(t.rRep = true ∧ m.repQ = [])) : routeRep st m t = (st, m) := by
  unfold routeRep; rw [if_neg h]

theorem routeCont_fst_conts_if (st : DbSt) (m : MRec) (t : TriageR) :
    (routeCont st m t).1.conts
      = if t.rCont = true ∧ m.contQ = [] then
          st.conts ++
            [⟨st.nextId, pyStrip (pyOrS t.contTitle (fallbackTitle (chars "Content") m))⟩]
        else st.conts := by
  unfold routeCont; split_ifs <;> rfl

theorem routeCont_fst_leads (st : DbSt) (m : MRec) (t : TriageR) :
    (routeCont st m t).1.leads = st.leads := by
  unfold routeCont; split_ifs <;> rfl

theorem routeCont_fst_reps (st : DbSt) (m : MRec) (t : TriageR) :
    (routeCont st m t).1.reps = st.reps := by
  unfold routeCont; split_ifs <;> rfl

theorem routeCont_snd_leadsQ (st : DbSt) (m : MRec) (t : TriageR) :
    (routeCont st m t).2.leadsQ = m.leadsQ := by
  unfold routeCont; split_ifs <;> rfl

theorem routeCont_snd_repQ (st : DbSt) (m : MRec) (t : TriageR) :
    (routeCont st m t).2.repQ = m.repQ := by
  unfold routeCont; split_ifs <;> rfl

theorem routeCont_snd_contQ_if (st : DbSt) (m : MRec) (t : TriageR) :
    (routeCont st m t).2.contQ
      = if t.rCont = true ∧ m.contQ = [] then [st.nextId] else m.contQ := by
  unfold routeCont; split_ifs <;> rfl

theorem routeCont_noop {st : DbSt} {m : MRec} {t : TriageR}
    (h : ¬(t.rCont = true ∧ m.contQ = [])) : routeCont st m t = (st, m) := by
  unfold routeCont; rw [if_neg h]

theorem routeAll_fst_leads (st : DbSt) (m : MRec) (t : TriageR) :
    (routeAll st m t).1.leads
      = if t.rLead = true ∧ m.leadsQ = [] then
          st.leads ++ [⟨st.nextId, pyStrip (pyOrS t.leadTitle (fallbackTitle (chars "Lead") m))⟩]
        else st.leads := by
  show (routeCont (routeRep (routeLead st m t).1 (routeLead st m t).2 t).1
      (routeRep (routeLead st m t).1 (routeLead st m t).2 t).2 t).1.leads = _
  rw [routeCont_fst_leads, routeRep_fst_leads, routeLead_fst_leads_if]

theorem routeLead_snd_fallback (st : DbSt) (m : MRec) (t : TriageR) (d : Str) :
    fallbackTitle d (routeLead st m t).2 = fallbackTitle d m := by
  unfold routeLead; split_ifs <;> rfl

theorem routeRep_snd_fallback (st : DbSt) (m : MRec) (t : TriageR) (d : Str) :
    fallbackTitle d (routeRep st m t).2 = fallbackTitle d m := by
  unfold routeRep; split_ifs <;> rfl

theorem routeAll_fst_reps (st : DbSt) (m : MRec) (t : TriageR) :
    (routeAll st m t).1.reps
      = if t.rRep = true ∧ m.repQ = [] then
          st.reps ++
            [⟨(routeLead st m t).1.nextId,
              pyStrip (pyOrS t.repTitle (fallbackTitle (chars "Reputation") m))⟩]
        else st.reps := by
  show (routeCont (routeRep (routeLead st m t).1 (routeLead st m t).2 t).1
      (routeRep (routeLead st m t).1 (routeLead st m t).2 t).2 t).1.reps = _
  rw [routeCont_fst_reps, routeRep_fst_reps_if, routeLead_snd_repQ, routeLead_fst_reps,
    routeLead_snd_fallback]

theorem routeAll_fst_conts (st : DbSt) (m : MRec) (t : TriageR) :
    (routeAll st m t).1.conts
      = if t.rCont = true ∧ m.contQ = [] then
          st.conts ++
            [⟨(routeRep (routeLead st m t).1 (routeLead st m t).2 t).1.nextId,
              pyStrip (pyOrS t.contTitle (fallbackTitle (chars "Content") m))⟩]
        else st.conts := by
  show (routeCont (routeRep (routeLead st m t).1 (routeLead st m t).2 t).1
      (routeRep (routeLead st m t).1 (routeLead st m t).2 t).2 t).1.conts = _
  rw [routeCont_fst_conts_if, routeRep_snd_contQ, routeLead_snd_contQ, routeRep_fst_conts,
    routeLead_fst_conts, routeRep_snd_fallback, routeLead_snd_fallback]

theorem routeAll_snd_leadsQ (st : DbSt) (m : MRec) (t : TriageR) :
    (routeAll st m t).2.leadsQ
      = if t.rLead = true ∧ m.leadsQ = [] then [st.nextId] else m.leadsQ := by
  show (routeCont (routeRep (routeLead st m t).1 (routeLead st m t).2 t).1
      (routeRep (routeLead st m t).1 (routeLead st m t).2 t).2 t).2.leadsQ = _
  rw [routeCont_snd_leadsQ, routeRep_snd_leadsQ, routeLead_snd_leadsQ_if]

theorem routeAll_snd_repQ (st : DbSt) (m : MRec) (t : TriageR) :
    (routeAll st m t).2.repQ
      = if t.rRep = true ∧ m.repQ = [] then [(routeLead st m t).1.nextId] else m.repQ := by
  show (routeCont (routeRep (routeLead st m t).1 (routeLead st m t).2 t).1
      (routeRep (routeLead st m t).1 (routeLead st m t).2 t).2 t).2.repQ = _
  rw [routeCont_snd_repQ, routeRep_snd_repQ_if, routeLead_snd_repQ]

theorem routeAll_snd_contQ (st : DbSt) (m : MRec) (t : TriageR) :
    (routeAll st m t).2.contQ
      = if t.rCont = true ∧ m.contQ = [] then
          [(routeRep (routeLead st m t).1 (routeLead st m t).2 t).1.nextId]
        else m.contQ := by
  show (routeCont (routeRep (routeLead st m t).1 (routeLead st m t).2 t).1
      (routeRep (routeLead st m t).1 (routeLead st m t).2 t).2 t).2.contQ = _
  rw [routeCont_snd_contQ_if, routeRep_snd_contQ, routeLead_snd_contQ]

/-- C3: the Router creates a queue record for a destination iff the route
flag is true and the Mention's existing relation list for that destination
is empty; and a second run on the first run's output (the first run's
relation writes being visible) changes nothing, so at most one record per
destination is ever created. -/
theorem C3_router_idempotent (st : DbSt) (m : MRec) (t : TriageR) :
    ((routeAll st m t).1.leads.length
        = st.leads.length + (if t.rLead = true ∧ m.leadsQ = [] then 1 else 0)) ∧
      ((routeAll st m t).1.reps.length
        = st.reps.length + (if t.rRep = true ∧ m.repQ = [] then 1 else 0)) ∧
      ((routeAll st m t).1.conts.length
        = st.conts.length + (if t.rCont = true ∧ m.contQ = [] then 1 else 0)) ∧
      routeAll (routeAll st m t).1 (routeAll st m t).2 t = routeAll st m t := by
  refine ⟨?_, ?_, ?_, ?_⟩
  · rw [routeAll_fst_leads]; split_ifs <;> simp
  · rw [routeAll_fst_reps]; split_ifs <;> simp
  · rw [routeAll_fst_conts]; split_ifs <;> simp
  · have hnl : ¬(t.rLead = true ∧ (routeAll st m t).2.leadsQ = []) := by
      rw [routeAll_snd_leadsQ]
      rintro ⟨hflag, hempty⟩
      by_cases hm0 : m.leadsQ = []
      · rw [if_pos ⟨hflag, hm0⟩] at hempty; exact absurd hempty (by simp)
      · rw [if_neg (fun hc => hm0 hc.2)] at hempty; exact hm0 hempty
    have hnr : ¬(t.rRep = true ∧ (routeAll st m t).2.repQ = []) := by
      rw [routeAll_snd_repQ]
      rintro ⟨hflag, hempty⟩
      by_cases hm0 : m.repQ = []
      · rw [if_pos ⟨hflag, hm0⟩] at hempty; exact absurd hempty (by simp)
      · rw [if_neg (fun hc => hm0 hc.2)] at hempty; exact hm0 hempty
    have hnc : ¬(t.rCont = true ∧ (routeAll st m t).2.contQ = []) := by
      rw [routeAll_snd_contQ]
      rintro ⟨hflag, hempty⟩
      by_cases hm0 : m.contQ = []
      · rw [if_pos ⟨hflag, hm0⟩] at hempty; exact absurd hempty (by simp)
      · rw [if_neg (fun hc => hm0 hc.2)] at hempty; exact hm0 hempty
    have h1 : routeLead (routeAll st m t).1 (routeAll st m t).2 t
        = ((routeAll st m t).1, (routeAll st m t).2) := routeLead_noop hnl
    have h2 : routeRep (routeAll st m t).1 (routeAll st m t).2 t
        = ((routeAll st m t).1, (routeAll st m t).2) := routeRep_noop hnr
    have h3 : routeCont (routeAll st m t).1 (routeAll st m t).2 t
        = ((routeAll st m t).1, (routeAll st m t).2) := routeCont_noop hnc
    show routeCont (routeRep (routeLead (routeAll st m t).1 (routeAll st m t).2 t).1
        (routeLead (routeAll st m t).1 (routeAll st m t).2 t).2 t).1
        (routeRep (routeLead (routeAll st m t).1 (routeAll st m t).2 t).1
          (routeLead (routeAll st m t).1 (routeAll st m t).2 t).2 t).2 t = routeAll st m t
    rw [h1]
    show routeCont (routeRep (routeAll st m t).1 (routeAll st m t).2 t).1
        (routeRep (routeAll st m t).1 (routeAll st m t).2 t).2 t = routeAll st m t
    rw [h2]
    show routeCont (routeAll st m t).1 (routeAll st m t).2 t = routeAll st m t
    rw [h3]

/-- C5, counterexample: a whitespace-only model title is truthy for Python's
`or`, so the created lead record's title is the stripped model title, i.e.
empty, and not the destination fallback pattern the claim requires for
titles that are blank after trimming. -/
theorem C5_counterexample :
    (routeAll exDb exMention exTriageBlankTitle).1.leads = [⟨0, []⟩] ∧
      pyStrip (chars " ") = [] ∧
      fallbackTitle (chars "Lead") exMention = chars "Lead — Reddit — alice" ∧
      ([] : Str) ≠ chars "Lead — Reddit — alice" := by
  exact ⟨rfl, rfl, rfl, by decide⟩

/-- C5, amended: the created record's title is the stripped model title
whenever the model title is a non-empty string, and the stripped
destination-specific fallback pattern exactly when the model title is the
empty string (so whitespace-only titles yield an empty title, not the
fallback). -/
theorem C5_title_selection (st : DbSt) (m : MRec) (t : TriageR) :
    ((routeAll st m t).1.leads.map QRec.title
        = st.leads.map QRec.title ++
          (if t.rLead = true ∧ m.leadsQ = [] then
            [pyStrip (if t.leadTitle = [] then fallbackTitle (chars "Lead") m
              else t.leadTitle)]
           else [])) ∧
      ((routeAll st m t).1.reps.map QRec.title
        = st.reps.map QRec.title ++
          (if t.rRep = true ∧ m.repQ = [] then
            [pyStrip (if t.repTitle = [] then fallbackTitle (chars "Reputation") m
              else t.repTitle)]
           else [])) ∧
      ((routeAll st m t).1.conts.map QRec.title
        = st.conts.map QRec.title ++
          (if t.rCont = true ∧ m.contQ = [] then
            [pyStrip (if t.contTitle = [] then fallbackTitle (chars "Content") m
              else t.contTitle)]
           else [])) := by
  refine ⟨?_, ?_, ?_⟩
  · rw [routeAll_fst_leads]
    simp only [pyOrS]
    split_ifs <;> simp
  · rw [routeAll_fst_reps]
    simp only [pyOrS]
    split_ifs <;> simp
  · rw [routeAll_fst_conts]
    simp only [pyOrS]
    split_ifs <;> simp

/-- C7: when processing a Mention ends in a raised failure (transport,
malformed response or contract violation, on either pass), no write has been
performed: the databases and the Mention are exactly their initial values. -/
theorem C7_no_write_on_failure (st : DbSt) (m : MRec) (r1 r2 : Except CErr JVal) (e : CErr)
    (h : (processOne st m r1 r2).2.2 = some e) :
    (processOne st m r1 r2).1 = st ∧ (processOne st m r1 r2).2.1 = m := by
  rcases hp : processOne st m r1 r2 with ⟨st', m', e'⟩
  have he : e' = some e := by rw [hp] at h; exact h
  subst he
  obtain ⟨h1, h2⟩ := processOne_fail_frame hp
  exact ⟨h1, h2⟩

/-- Witness for C7: a contract violation (the LLM returned the empty JSON
object, which fails validation after normalization) leaves everything
untouched. -/
theorem C7_no_write_on_failure_witness :
    (processOne exDb exMention (.ok (.jobj [])) (.ok .jnull)).2.2 = some CErr.contract ∧
      ((processOne exDb exMention (.ok (.jobj [])) (.ok .jnull)).1 = exDb ∧
        (processOne exDb exMention (.ok (.jobj [])) (.ok .jnull)).2.1 = exMention) :=
  ⟨rfl, C7_no_write_on_failure exDb exMention (.ok (.jobj [])) (.ok .jnull) CErr.contract rfl⟩

/-- C6, counterexample: with two queued Mentions where the first one's
classification raises a transport failure, the run aborts: the second
Mention is left untriaged even though processing it alone would have
succeeded and written its sentiment, refuting skip-and-continue. -/
theorem C6_counterexample :
    runTriageLoop exDb
        [(exMention, .error .transport, .error .transport),
          (exMention2, .ok (.jobj exTriageObj), .ok .jnull)]
      = (exDb, [exMention, exMention2], some .transport) ∧
      (processOne exDb exMention2 (.ok (.jobj exTriageObj)) (.ok .jnull)).2.2 = none ∧
      (processOne exDb exMention2 (.ok (.jobj exTriageObj)) (.ok .jnull)).2.1.sentiment
        = some (chars "Neutral") :=
  ⟨rfl, rfl, rfl⟩

/-- C6, amended: a failure while processing one record does not skip-and-
continue: it propagates, the failing record is left unmodified, and all
remaining records of the run are left unprocessed; only records missing
url/text are skipped with a notice while the loop goes on. -/
theorem C6_failure_aborts_run (st : DbSt) (m : MRec) (r1 r2 : Except CErr JVal) (e : CErr)
    (rest : List (MRec × Except CErr JVal × Except CErr JVal))
    (h : (processOne st m r1 r2).2.2 = some e) :
    runTriageLoop st ((m, r1, r2) :: rest)
      = (st, m :: rest.map (fun x => x.1), some e) := by
  rcases hp : processOne st m r1 r2 with ⟨st', m', e'⟩
  have he : e' = some e := by rw [hp] at h; exact h
  subst he
  obtain ⟨h1, h2⟩ := processOne_fail_frame hp
  subst h1
  subst h2
  simp only [runTriageLoop]
  rw [hp]

/-- Witness for C6 at a concrete failing record. -/
theorem C6_failure_aborts_run_witness :
    runTriageLoop exDb [(exMention, .error CErr.transport, .error CErr.transport)]
      = (exDb, [exMention], some CErr.transport) :=
  C6_failure_aborts_run exDb exMention (.error CErr.transport) (.error CErr.transport)
    CErr.transport [] rfl

theorem dedupFirst_length_le (l : List Str) : (dedupFirst l).length ≤ l.length := by
  induction l using dedupFirst.induct with
  | case1 => rw [dedupFirst]
  | case2 x xs ih =>
      rw [dedupFirst]
      simp only [List.length_cons]
      exact Nat.succ_le_succ (le_trans ih (List.length_filter_le _ xs))

/-- A schema-valid synthesis topic with a single mention id. -/
def exTopic1 : TopicR := { exTopic with mentionIds := [chars "a"] }

/-- C4, counterexample: a topic whose two mention ids resolve to no Mention of
the input batch is nevertheless persisted as a Content record (with empty
source links), so resolvability is not part of the acceptance test. -/
theorem C4_counterexample :
    synthRun [(chars "a", chars "http://u")] [exTopic]
      = [{ topicTitle := chars "Great topic here", audience := chars "Operator",
            platformT := chars "X", priority := 2,
            relIds := [chars "x", chars "y"], sourceLinks := [] }] ∧
      resolvableCount [(chars "a", chars "http://u")] [chars "x", chars "y"] = 0 := by
  constructor
  · simp +decide [synthRun, synthPostTopic, mainTopicStep, exTopic, cleanMids, midsKeep,
      cleanOne, cleanBullets, cleanGo, pyStrip, pyStripL, wsp, chars, words, joinWords,
      lowerS, pyLower, dedupFirst, normalizeChoice, allowedAudience, allowedPlatformTarget,
      lookupUrl, joinNL, pyTruncQ]
  · decide

/-- C4, amended: a topic is persisted exactly when its stripped title has at
least 5 characters and its deduplicated, 15-capped mention-id list has at
least 2 entries — a count test that never consults the batch; the persisted
related ids are that capped list; in particular a topic with fewer than two
mention ids (such as a singleton list) is always dropped. -/
theorem C4_persistence_condition (batch : List (Str × Str)) (t : TopicR) :
    ((mainTopicStep batch t).isSome
        = (decide (5 ≤ (pyStrip t.topic).length)
            && decide (2 ≤ ((dedupFirst t.mentionIds).take 15).length))) ∧
      (∀ r, mainTopicStep batch t = some r →
        r.relIds = (dedupFirst t.mentionIds).take 15) ∧
      (t.mentionIds.length < 2 → mainTopicStep batch t = none) := by
  refine ⟨?_, ?_, ?_⟩
  · simp only [mainTopicStep]
    by_cases h1 : (pyStrip t.topic).length < 5
    · rw [if_pos h1]
      simp only [Option.isSome_none]
      have hd : decide (5 ≤ (pyStrip t.topic).length) = false := decide_eq_false (by omega)
      rw [hd, Bool.false_and]
    · rw [if_neg h1]
      by_cases h2 : ((dedupFirst t.mentionIds).take 15).length < 2
      · rw [if_pos h2]
        simp only [Option.isSome_none]
        have hd : decide (2 ≤ ((dedupFirst t.mentionIds).take 15).length) = false :=
          decide_eq_false (by omega)
        rw [hd, Bool.and_false]
      · rw [if_neg h2]
        simp only [Option.isSome_some]
        have ha : decide (5 ≤ (pyStrip t.topic).length) = true := decide_eq_true (by omega)
        have hb : decide (2 ≤ ((dedupFirst t.mentionIds).take 15).length) = true :=
          decide_eq_true (by omega)
        rw [ha, hb]
        rfl
  · intro r hr
    simp only [mainTopicStep] at hr
    split_ifs at hr
    all_goals first
      | exact Option.noConfusion hr
      | rw [← Option.some.inj hr]
  · intro h
    have hle : ((dedupFirst t.mentionIds).take 15).length ≤ (dedupFirst t.mentionIds).length := by
      rw [List.length_take]
      omega
    have hl : ((dedupFirst t.mentionIds).take 15).length < 2 :=
      lt_of_le_of_lt (le_trans hle (dedupFirst_length_le _)) h
    simp only [mainTopicStep]
    by_cases h1 : (pyStrip t.topic).length < 5
    · rw [if_pos h1]
    · rw [if_neg h1, if_pos hl]

/-- Witness for C4 at a concrete topic whose mention-id list is the singleton
list of one id: it is dropped before persistence. -/
theorem C4_persistence_condition_witness :
    exTopic1.mentionIds.length < 2 ∧ mainTopicStep [] exTopic1 = none :=
  ⟨by decide, (C4_persistence_condition [] exTopic1).2.2 (by decide)⟩

end ContentOps
